import Mathlib

/-!
Verification of the transform-and-upsert ETL core of the market-data-pipeline
repository (src/database/import_papers.py) and of its quality-test runner
(src/database/test_papers_table.py).

The raw input records are arbitrary JSON/Python values, modelled by the
inductive type `Py`.  The transform functions are translated line by line from
`import_papers.py`; Python expressions that can raise are modelled in the
`Except String` monad (the error string names the Python exception class), and
the try/except blocks of the source are modelled by catching those errors.
The persisted store is modelled as association lists keyed by the conflict
targets of the three `INSERT ... ON CONFLICT` statements of the source, and
the per-field merge policy of those statements (`COALESCE(EXCLUDED.f, t.f)`
versus plain `EXCLUDED.f`) is transcribed column by column from the SQL text
embedded in `upsert_papers`, `upsert_authors` and `upsert_paper_authors`.
Database-side value typing and the DOI uniqueness index live in schema.sql,
which is outside the modelled source; the store therefore accepts any `Py`
value in any column.  Timestamp columns (`ingested_at`, `updated_at`,
`created_at`) are modelled by a `Nat` clock passed into each run.
-/

set_option linter.unusedVariables false

namespace ImportPapers

/-- Model of a Python/JSON value as it flows through import_papers.py.
Numbers are split into `int` and `float`; a float is modelled as an exact
rational, which is faithful for the only float constants the code ever
creates (0.5 and 0.0). -/
inductive Py : Type where
  | none  : Py
  | bool  : Bool → Py
  | int   : Int → Py
  | float : ℚ → Py
  | str   : String → Py
  | list  : List Py → Py
  | dict  : List (String × Py) → Py

/-- Python truthiness (`bool(x)`): None, False, 0, empty containers are falsy. -/
def Py.truthy : Py → Bool
  | .none => false
  | .bool b => b
  | .int n => n ≠ 0
  | .float q => q ≠ 0
  | .str s => s ≠ ""
  | .list xs => ¬ xs.isEmpty
  | .dict kvs => ¬ kvs.isEmpty

/-- Test for the SQL/Python null value. -/
def Py.isNone : Py → Bool
  | .none => true
  | _ => false

/-- Python `a or b`: `a` if truthy, else `b`. -/
def Py.or (a b : Py) : Py :=
  if a.truthy then a else b

/-- Numeric view used by Python cross-type numeric comparison
(`True == 1 == 1.0`). -/
def Py.asRat : Py → Option ℚ
  | .bool b => some (if b then 1 else 0)
  | .int n => some n
  | .float q => some q
  | _ => Option.none

mutual

/-- Python `==` on our value model.  Numeric values compare across
bool/int/float; strings compare as strings; lists compare elementwise;
values of unrelated types compare unequal without raising.  Python compares
dicts as unordered maps; the model compares the underlying key/value lists
in order, which agrees with Python on every dict the pipeline constructs. -/
def Py.eqb : Py → Py → Bool
  | .none, .none => true
  | .str a, .str b => a = b
  | .list xs, .list ys => Py.eqbList xs ys
  | .dict xs, .dict ys => Py.eqbKVs xs ys
  | a, b =>
    match a.asRat, b.asRat with
    | some x, some y => x = y
    | _, _ => false

def Py.eqbList : List Py → List Py → Bool
  | [], [] => true
  | x :: xs, y :: ys => Py.eqb x y && Py.eqbList xs ys
  | _, _ => false

def Py.eqbKVs : List (String × Py) → List (String × Py) → Bool
  | [], [] => true
  | (k, v) :: xs, (l, w) :: ys => k = l && Py.eqb v w && Py.eqbKVs xs ys
  | _, _ => false

end

/-- Python hashability: lists and dicts are unhashable (adding one to a set
raises TypeError). -/
def Py.hashable : Py → Bool
  | .list _ => false
  | .dict _ => false
  | _ => true

/-- Lookup in the key/value list of a dict (first binding wins, as a Python
dict holds each key once). -/
def Py.lookupKey : List (String × Py) → String → Option Py
  | [], _ => Option.none
  | (k, v) :: rest, key => if k = key then some v else Py.lookupKey rest key

/-- Python `d.get(k, default)`.  Only dicts have `.get`; on any other value
the attribute access raises. -/
def Py.getD : Py → String → Py → Except String Py
  | .dict kvs, k, d => .ok ((Py.lookupKey kvs k).getD d)
  | _, _, _ => .error "AttributeError"

/-- Python `d.get(k)` (default None). -/
def Py.get (p : Py) (k : String) : Except String Py :=
  p.getD k .none

/-- Python iteration: lists yield elements, strings yield one-character
strings, dicts yield their keys; other values raise TypeError. -/
def Py.iter : Py → Except String (List Py)
  | .list xs => .ok xs
  | .str s => .ok (s.data.map fun c => Py.str (String.mk [c]))
  | .dict kvs => .ok (kvs.map fun kv => Py.str kv.1)
  | _ => .error "TypeError"

/-- Python `len`: sized containers only. -/
def Py.len : Py → Except String Int
  | .list xs => .ok xs.length
  | .str s => .ok s.length
  | .dict kvs => .ok kvs.length
  | _ => .error "TypeError"

/-- Python subscript `p[0]` as used on `topics[0]` and `countries[0]`:
list indexing; any non-sequence raises (a dict raises KeyError for a missing
integer key, and the model dict has only string keys). -/
def Py.index0 : Py → Except String Py
  | .list [] => .error "IndexError"
  | .list (x :: _) => .ok x
  | .str s => match s.data with
    | [] => .error "IndexError"
    | c :: _ => .ok (Py.str (String.mk [c]))
  | .dict _ => .error "KeyError"
  | _ => .error "TypeError"

/-- Python slice `p[:50]` as evaluated on `paper_data['title']` inside
`process_paper`: sequences (str, list) support slicing, everything else
raises TypeError. -/
def Py.slice50 : Py → Except String Py
  | .str s => .ok (Py.str (String.mk (s.data.take 50)))
  | .list xs => .ok (Py.list (xs.take 50))
  | _ => .error "TypeError"

/-- Substring test, Python `needle in haystack` for strings. -/
def strContains (hay needle : String) : Bool :=
  hay.data.tails.any fun t => needle.data.isPrefixOf t

/-- Python `s.startswith(pre)`. -/
def pyStartsWith (pre s : String) : Bool :=
  pre.data.isPrefixOf s.data

/-- Splitting worker on character lists; the fuel is an upper bound on the
number of steps, consumed one character or one separator occurrence at a
time. -/
def pySplitGo (sep : List Char) : Nat → List Char → List Char →
    List (List Char)
  | 0, acc, hay => [acc ++ hay]
  | fuel + 1, acc, hay =>
    if ¬ sep.isEmpty ∧ sep.isPrefixOf hay then
      acc :: pySplitGo sep fuel [] (hay.drop sep.length)
    else
      match hay with
      | [] => [acc]
      | c :: rest => pySplitGo sep fuel (acc ++ [c]) rest

/-- Python `s.split(sep)` for a non-empty separator: every (non-overlapping,
leftmost-first) occurrence of the separator delimits a segment, including
empty segments at the ends. -/
def pySplit (sep s : String) : List String :=
  (pySplitGo sep.data (s.data.length + 1) [] s.data).map String.mk

/-- Replacement worker on character lists. -/
def pyReplaceGo (old new : List Char) : Nat → List Char → List Char
  | 0, hay => hay
  | fuel + 1, hay =>
    if ¬ old.isEmpty ∧ old.isPrefixOf hay then
      new ++ pyReplaceGo old new fuel (hay.drop old.length)
    else
      match hay with
      | [] => []
      | c :: rest => c :: pyReplaceGo old new fuel rest

/-- Python `s.replace(old, new)` for a non-empty pattern: every
non-overlapping occurrence, scanned left to right. -/
def pyReplace (old new s : String) : String :=
  String.mk (pyReplaceGo old.data new.data (s.data.length + 1) s.data)

/-- Python `c.lower()` for one character (ASCII, as in the identifiers and
vocabulary the pipeline compares). -/
def pyCharLower (c : Char) : Char :=
  if 65 ≤ c.toNat ∧ c.toNat ≤ 90 then Char.ofNat (c.toNat + 32) else c

/-- Python `s.lower()` on a string value. -/
def strLower (s : String) : String :=
  String.mk (s.data.map pyCharLower)

/-- Python `s.lower()`: strings only. -/
def Py.lower : Py → Except String Py
  | .str s => .ok (Py.str (strLower s))
  | _ => .error "AttributeError"

/-- Python `needle in container` for a string needle, as evaluated by
`extract_id_from_url` and the ORCID handling: substring test on strings,
elementwise `==` on lists, key membership on dicts; other containers raise. -/
def pyContainsStr (needle : String) : Py → Except String Bool
  | .str s => .ok (strContains s needle)
  | .list xs => .ok (xs.any (Py.eqb (Py.str needle)))
  | .dict kvs => .ok (kvs.any fun kv => kv.1 = needle)
  | _ => .error "TypeError"

/-- ASCII single quote, used by the Python repr of strings. -/
def quoteChar : String := String.mk [Char.ofNat 39]

mutual

/-- Python `repr`, as far as `str(k)` on a keywords element can need it
(repr is applied to the elements of a list or dict being stringified). -/
def Py.pyRepr : Py → String
  | .none => "None"
  | .bool b => if b then "True" else "False"
  | .int n => toString n
  | .float q => toString q
  | .str s => quoteChar ++ s ++ quoteChar
  | .list xs => "[" ++ Py.pyReprList xs ++ "]"
  | .dict kvs => "\x7b" ++ Py.pyReprKVs kvs ++ "\x7d"

def Py.pyReprList : List Py → String
  | [] => ""
  | [x] => Py.pyRepr x
  | x :: xs => Py.pyRepr x ++ ", " ++ Py.pyReprList xs

def Py.pyReprKVs : List (String × Py) → String
  | [] => ""
  | [(k, v)] => quoteChar ++ k ++ quoteChar ++ ": " ++ Py.pyRepr v
  | (k, v) :: xs =>
    quoteChar ++ k ++ quoteChar ++ ": " ++ Py.pyRepr v ++ ", " ++ Py.pyReprKVs xs

end

/-- Python `str(k)`: identity on strings, repr-style rendering otherwise. -/
def Py.toStr : Py → String
  | .str s => s
  | p => p.pyRepr

/-- Stable insert into a descending-sorted list of (key, payload) pairs:
the new pair goes after every strictly greater key, before equal keys that
occur later in the original list.  This reproduces the stability of Python
`sorted(..., reverse=True)`. -/
def insertDesc {α : Type} (lt : α → α → Bool) (x : α × Py) :
    List (α × Py) → List (α × Py)
  | [] => [x]
  | y :: ys => if lt x.1 y.1 then y :: insertDesc lt x ys else x :: y :: ys

/-- Stable descending insertion sort on (key, payload) pairs. -/
def sortDescPairs {α : Type} (lt : α → α → Bool) :
    List (α × Py) → List (α × Py)
  | [] => []
  | x :: xs => insertDesc lt x (sortDescPairs lt xs)

/-- Python `sorted(concepts, key=lambda x: x.get("score", 0), reverse=True)`.
Each key extraction raises on a non-dict element.  With at most one element
no comparison happens.  Otherwise Python compares the keys pairwise: an
all-numeric key list (bool/int/float) sorts numerically, an all-string key
list sorts lexicographically, and any mixed or unorderable key list raises
TypeError on the first adjacent comparison. -/
def sortedByScoreDesc (xs : List Py) : Except String (List Py) := do
  let keyed ← xs.mapM fun c => do
    let k ← c.getD "score" (.int 0)
    pure (k, c)
  if keyed.length ≤ 1 then
    return (keyed.map fun kc => kc.2)
  if keyed.all fun kc => kc.1.asRat.isSome then
    let numKeyed := keyed.map fun kc => (kc.1.asRat.getD 0, kc.2)
    return (sortDescPairs (fun a b => decide (a < b)) numKeyed).map fun kc => kc.2
  if keyed.all fun kc => match kc.1 with | .str _ => true | _ => false then
    let strKeyed := keyed.map fun kc =>
      ((match kc.1 with | .str s => s | _ => ""), kc.2)
    return (sortDescPairs (fun a b => decide (a < b)) strKeyed).map fun kc => kc.2
  .error "TypeError"

/-- The helper `safe_get(data, *keys, default)` of import_papers.py:
nested dict lookup that returns the default on any missing key, null value
or non-dict intermediate, and never raises. -/
def safe_get (data : Py) (keys : List String) (default : Py) : Py :=
  match keys with
  | [] => if data.isNone then default else data
  | key :: rest =>
    match data with
    | .dict kvs =>
      match Py.lookupKey kvs key with
      | Option.none => default
      | some v => if v.isNone then default else safe_get v rest default
    | _ => default

/-- The helper `extract_id_from_url` of import_papers.py.  A falsy value maps
to None; a value containing "/" is split and the last segment returned (only
a string has `.split`, so a list that happens to contain "/" raises); any
other truthy value is returned unchanged. -/
def extract_id_from_url (url : Py) : Except String Py := do
  if ¬ url.truthy then
    return .none
  if ← pyContainsStr "/" url then
    match url with
    | .str s => return .str ((pySplit "/" s).getLastD "")
    | _ => .error "AttributeError"
  else
    return url

/-- Python `next((a for a in xs if p a), None)`: the first element satisfying
the predicate, None if there is none; elements after the first hit are never
inspected, so a predicate error there does not surface. -/
def findFirstM (p : Py → Except String Bool) : List Py → Except String Py
  | [] => .ok .none
  | x :: xs => do
    if ← p x then pure x else findFirstM p xs

/-- Python `set.add`: raises TypeError on an unhashable value, otherwise
inserts the value if no equal member is present.  Only the cardinality and
membership of the model set are ever consumed. -/
def pySetAdd (s : List Py) (x : Py) : Except String (List Py) :=
  if ¬ x.hashable then .error "TypeError"
  else if s.any (Py.eqb x) then .ok s
  else .ok (s ++ [x])

/-- Accumulator of the institutions/countries scan loop of
`transform_paper_data`. -/
structure ScanState where
  instSet : List Py
  countrySet : List Py
  firstInstitution : Py
  firstCountry : Py

/-- One iteration of the `for authorship in authorships` loop of
`transform_paper_data` (lines 221-236 of import_papers.py). -/
def scanAuthorship (st : ScanState) (authorship : Py) : Except String ScanState := do
  let institutions := (← authorship.get "institutions").or (.list [])
  let countries := (← authorship.get "countries").or (.list [])
  let instElems ← institutions.iter
  let st ← instElems.foldlM (fun st inst => do
    let instName ← inst.get "display_name"
    if instName.truthy then
      let s ← pySetAdd st.instSet instName
      let fi := if ¬ st.firstInstitution.truthy then instName else st.firstInstitution
      pure { st with instSet := s, firstInstitution := fi }
    else
      pure st) st
  let countryElems ← countries.iter
  countryElems.foldlM (fun st country =>
    if country.truthy then do
      let s ← pySetAdd st.countrySet country
      let fc := if ¬ st.firstCountry.truthy then country else st.firstCountry
      pure { st with countrySet := s, firstCountry := fc }
    else
      pure st) st

/-- Fixed vocabulary of domain terms of `transform_paper_data` (the source
holds them in a set literal; only `any` over them is consumed, so the model
order is irrelevant). -/
def aiKeywords : List String :=
  ["artificial intelligence", "machine learning", "deep learning",
   "neural network", "ai", "ml", "dl"]

/-- One normalized paper row, the dict built by `transform_paper_data`
(lines 269-322 of import_papers.py), fields in source order. -/
@[ext]
structure PaperRow where
  paper_id : Py
  doi : Py
  title : Py
  publication_year : Py
  publication_date : Py
  paper_type : Py
  language : Py
  journal_name : Py
  publisher : Py
  journal_issn : Py
  is_core_journal : Py
  is_open_access : Py
  oa_status : Py
  pdf_url : Py
  landing_page_url : Py
  license : Py
  author_count : Py
  first_author_name : Py
  corresponding_author_name : Py
  institution_count : Py
  country_count : Py
  first_institution : Py
  first_country : Py
  cited_by_count : Py
  referenced_works_count : Py
  fwci : Py
  citation_percentile : Py
  primary_topic : Py
  top_concept_1 : Py
  top_concept_2 : Py
  top_concept_3 : Py
  keywords : Py
  is_retracted : Py
  is_paratext : Py
  has_abstract : Py
  ai_relevance_score : Py
  has_ai_field : Py
  created_date : Py
  updated_date : Py

/-- Extraction of the `authorships` list of a raw paper record
(`paper.get("authorships") or []` followed by iteration), shared by
`transform_paper_data` and `process_paper`. -/
def rawAuthorships (p : Py) : Except String (List Py) := do
  ((← p.get "authorships").or (.list [])).iter

/-- The DOI normalization of `transform_paper_data` (lines 173-175): strip
the resolver URL from a truthy string DOI; a truthy non-string raises at
`.startswith`. -/
def doiOf (doi0 : Py) : Except String Py :=
  if doi0.truthy then
    match doi0 with
    | .str s =>
      if pyStartsWith "https://doi.org/" s then
        pure (Py.str (pyReplace "https://doi.org/" "" s))
      else pure doi0
    | _ => .error "AttributeError"
  else pure doi0

/-- The `primary_topic` extraction (line 297):
`topics[0].get("display_name") if topics else None`. -/
def primaryTopicOf (topics : Py) : Except String Py :=
  if topics.truthy then do
    (← topics.index0).get "display_name"
  else pure .none

/-- The `top_concept_i` extraction (lines 298-306):
`top_concepts[i].get("display_name") if len(top_concepts) > i else None`. -/
def topConceptOf (top_concepts : List Py) (i : Nat) : Except String Py :=
  match top_concepts.get? i with
  | some c => c.get "display_name"
  | Option.none => pure .none

/-- Body of `transform_paper_data` inside its try block: either the
normalized row, `none` for the missing-identifier early return, or a raised
Python exception.  Statements appear in source order (lines 167-324). -/
def transformPaperBody (p : Py) : Except String (Option PaperRow) := do
  let paper_id ← extract_id_from_url (← p.get "id")
  if ¬ paper_id.truthy then
    return Option.none
  let doi0 ← p.getD "doi" (.str "")
  let doi ← doiOf doi0
  let primary_loc := (← p.get "primary_location").or (.dict [])
  let source ← primary_loc.get "source"
  let source := source.or (.dict [])
  let oa_data := (← p.get "open_access").or (.dict [])
  let topics := (← p.get "topics").or (.list [])
  let concepts := (← p.get "concepts").or (.list [])
  let keywords := (← p.get "keywords").or (.list [])
  let conceptElems ← concepts.iter
  let top_concepts := (← sortedByScoreDesc conceptElems).take 3
  let authorshipElems ← rawAuthorships p
  let authorships := (← p.get "authorships").or (.list [])
  let first_author ← findFirstM (fun a => do
    pure (Py.eqb (← a.get "author_position") (.str "first"))) authorshipElems
  let first_author_name :=
    if first_author.truthy then
      safe_get first_author ["author", "display_name"] .none
    else Py.none
  let corresponding_author ← findFirstM (fun a => do
    pure (← a.get "is_corresponding").truthy) authorshipElems
  let corresponding_author_name :=
    if corresponding_author.truthy then
      safe_get corresponding_author ["author", "display_name"] .none
    else Py.none
  let scan ← authorshipElems.foldlM scanAuthorship ⟨[], [], .none, .none⟩
  let has_abstract := (← p.get "abstract_inverted_index").truthy
  let title_lower ← ((← p.get "title").or (.str "")).lower
  let titleLowerStr := match title_lower with | .str s => s | _ => ""
  let concepts_lower ← conceptElems.mapM fun c => do
    let d ← c.getD "display_name" (.str "")
    let l ← d.lower
    pure (match l with | .str s => s | _ => "")
  let keywordElems ← keywords.iter
  let keywords_lower ← keywordElems.mapM fun k => do
    match k with
    | .dict kvs => do
      let d := (Py.lookupKey kvs "display_name").getD (.str "")
      let l ← d.lower
      pure (match l with | .str s => s | _ => "")
    | _ => pure (strLower k.toStr)
  let has_ai_field := aiKeywords.any fun kw =>
    strContains titleLowerStr kw ||
    concepts_lower.any (fun c => strContains c kw) ||
    keywords_lower.any (fun k => strContains k kw)
  let ai_relevance_score : Py := if has_ai_field then .float (1/2) else .float 0
  let title := (← p.get "title").or (← p.get "display_name")
  let publication_year ← p.get "publication_year"
  let publication_date ← p.get "publication_date"
  let paper_type ← p.get "type"
  let language ← p.get "language"
  let journal_name ← source.get "display_name"
  let publisher ← source.get "host_organization_name"
  let journal_issn ← source.get "issn_l"
  let is_core_journal ← source.get "is_core"
  let is_open_access ← oa_data.get "is_oa"
  let oa_status ← oa_data.get "oa_status"
  let pdf_url := (← primary_loc.get "pdf_url").or (← oa_data.get "oa_url")
  let landing_page_url ← primary_loc.get "landing_page_url"
  let license ← primary_loc.get "license"
  let author_count ← authorships.len
  let cited_by_count ← p.getD "cited_by_count" (.int 0)
  let referenced_works_count ← p.getD "referenced_works_count" (.int 0)
  let primary_topic ← primaryTopicOf topics
  let top_concept_1 ← topConceptOf top_concepts 0
  let top_concept_2 ← topConceptOf top_concepts 1
  let top_concept_3 ← topConceptOf top_concepts 2
  let keywordsField :=
    if keywords.truthy then
      Py.list (keywordElems.map fun k =>
        match k with
        | .dict kvs => (Py.lookupKey kvs "display_name").getD .none
        | _ => .str k.toStr)
    else Py.none
  let is_retracted ← p.getD "is_retracted" (.bool false)
  let is_paratext ← p.getD "is_paratext" (.bool false)
  let created_date ← p.get "created_date"
  let updated_date ← p.get "updated_date"
  return some
    { paper_id := paper_id
      doi := doi.or .none
      title := title
      publication_year := publication_year
      publication_date := publication_date
      paper_type := paper_type
      language := language
      journal_name := journal_name
      publisher := publisher
      journal_issn := journal_issn
      is_core_journal := is_core_journal
      is_open_access := is_open_access
      oa_status := oa_status
      pdf_url := pdf_url
      landing_page_url := landing_page_url
      license := license
      author_count := .int author_count
      first_author_name := first_author_name
      corresponding_author_name := corresponding_author_name
      institution_count := .int scan.instSet.length
      country_count := .int scan.countrySet.length
      first_institution := scan.firstInstitution
      first_country := scan.firstCountry
      cited_by_count := cited_by_count
      referenced_works_count := referenced_works_count
      fwci := .none
      citation_percentile := .none
      primary_topic := primary_topic
      top_concept_1 := top_concept_1
      top_concept_2 := top_concept_2
      top_concept_3 := top_concept_3
      keywords := keywordsField
      is_retracted := is_retracted
      is_paratext := is_paratext
      has_abstract := .bool has_abstract
      ai_relevance_score := ai_relevance_score
      has_ai_field := .bool has_ai_field
      created_date := created_date
      updated_date := updated_date }

/-- The function `transform_paper_data` as its callers see it: the wrapping
try/except turns any raised exception into a None result. -/
def transform_paper_data (p : Py) : Option PaperRow :=
  match transformPaperBody p with
  | .ok r => r
  | .error _ => Option.none

/-- One normalized author row, the dict built by `transform_author_data`. -/
@[ext]
structure AuthorRow where
  author_id : Py
  display_name : Py
  orcid : Py
  primary_institution : Py
  primary_country : Py

/-- Body of `transform_author_data` inside its try block
(lines 342-372 of import_papers.py). -/
def transformAuthorBody (authorship : Py) : Except String (Option AuthorRow) := do
  let author := (← authorship.get "author").or (.dict [])
  let author_id ← extract_id_from_url (← author.get "id")
  if ¬ author_id.truthy then
    return Option.none
  let orcid0 ← author.getD "orcid" (.str "")
  let orcid ←
    if orcid0.truthy then do
      if ← pyContainsStr "orcid.org/" orcid0 then
        match orcid0 with
        | .str s => pure (Py.str ((pySplit "orcid.org/" s).getLastD ""))
        | _ => Except.error "AttributeError"
      else pure orcid0
    else pure orcid0
  let institutions := (← authorship.get "institutions").or (.list [])
  let countries := (← authorship.get "countries").or (.list [])
  let primary_institution ←
    if institutions.truthy then do
      (← institutions.index0).get "display_name"
    else pure Py.none
  let primary_country ←
    if countries.truthy then countries.index0 else pure Py.none
  let display_name ← author.getD "display_name" (.str "Unknown Author")
  return some
    { author_id := author_id
      display_name := display_name
      orcid := orcid.or .none
      primary_institution := primary_institution
      primary_country := primary_country }

/-- The function `transform_author_data` as its callers see it. -/
def transform_author_data (authorship : Py) : Option AuthorRow :=
  match transformAuthorBody authorship with
  | .ok r => r
  | .error _ => Option.none

/-- One normalized paper-author relationship row, the dict built by
`transform_paper_author_data`. -/
@[ext]
structure PaperAuthorRow where
  paper_id : Py
  author_id : Py
  author_position : Py
  author_sequence : Py
  is_corresponding : Py
  institution_names : Py
  institution_ids : Py
  countries : Py
  raw_affiliation_strings : Py

/-- Body of `transform_paper_author_data` inside its try block
(lines 394-432 of import_papers.py). -/
def transformPaperAuthorBody (paper_id : Py) (authorship : Py) (sequence : Int) :
    Except String (Option PaperAuthorRow) := do
  let author := (← authorship.get "author").or (.dict [])
  let author_id ← extract_id_from_url (← author.get "id")
  if ¬ author_id.truthy then
    return Option.none
  let institutions := (← authorship.get "institutions").or (.list [])
  let instElems ← institutions.iter
  let institution_names ← instElems.foldlM (fun acc inst => do
    let d ← inst.get "display_name"
    pure (if d.truthy then acc ++ [d] else acc)) ([] : List Py)
  let institution_ids ← instElems.foldlM (fun acc inst => do
    let i ← inst.get "id"
    if i.truthy then do
      let e ← extract_id_from_url i
      pure (acc ++ [e])
    else
      pure acc) ([] : List Py)
  let countries := (← authorship.get "countries").or (.list [])
  let raw_affiliations := (← authorship.get "raw_affiliation_strings").or (.list [])
  let author_position ← authorship.get "author_position"
  let is_corresponding ← authorship.getD "is_corresponding" (.bool false)
  return some
    { paper_id := paper_id
      author_id := author_id
      author_position := author_position
      author_sequence := .int sequence
      is_corresponding := is_corresponding
      institution_names :=
        if institution_names.isEmpty then Py.none else .list institution_names
      institution_ids :=
        if institution_ids.isEmpty then Py.none else .list institution_ids
      countries := if countries.truthy then countries else .none
      raw_affiliation_strings :=
        if raw_affiliations.truthy then raw_affiliations else .none }

/-- The function `transform_paper_author_data` as its callers see it. -/
def transform_paper_author_data (paper_id : Py) (authorship : Py) (sequence : Int) :
    Option PaperAuthorRow :=
  match transformPaperAuthorBody paper_id authorship sequence with
  | .ok r => r
  | .error _ => Option.none

/-- Last-wins collapse of the author dedup pass of `upsert_authors`
(lines 454-456): the Python dict comprehension keeps the first-seen key
order and the last-seen value for each author_id. -/
def dedupAuthorsLastWins (rows : List AuthorRow) : List AuthorRow :=
  rows.foldl (fun acc a =>
    if acc.any fun b => Py.eqb b.author_id a.author_id then
      acc.map fun b => if Py.eqb b.author_id a.author_id then a else b
    else acc ++ [a]) []

/-- Author dedup pass including the Python failure mode: an unhashable
author_id cannot be a dict key, so the comprehension raises TypeError
(outside the try block of `upsert_authors`, hence uncaught there). -/
def dedup_authors (rows : List AuthorRow) : Except String (List AuthorRow) :=
  if rows.all fun a => a.author_id.hashable then
    .ok (dedupAuthorsLastWins rows)
  else
    .error "TypeError"

/-- First-wins collapse of the authorship dedup pass of
`upsert_paper_authors` (lines 663-673), returning the surviving rows and the
duplicates-removed count.  A key is in the source's `seen` set exactly when a
row with that key is already in the accumulator, so the accumulator doubles
as the seen set. -/
def dedupPaperAuthorsFirstWins (rows : List PaperAuthorRow) :
    List PaperAuthorRow × Nat :=
  rows.foldl (fun acc pa =>
    if acc.1.any fun q => Py.eqb q.paper_id pa.paper_id && Py.eqb q.author_id pa.author_id then
      (acc.1, acc.2 + 1)
    else
      (acc.1 ++ [pa], acc.2)) ([], 0)

/-- Authorship dedup pass including the Python failure mode: an unhashable
component of the `(paper_id, author_id)` tuple makes `seen.add` raise
TypeError (outside the try block, hence uncaught there). -/
def dedup_paper_authors (rows : List PaperAuthorRow) :
    Except String (List PaperAuthorRow × Nat) :=
  if rows.all fun r => r.paper_id.hashable && r.author_id.hashable then
    .ok (dedupPaperAuthorsFirstWins rows)
  else
    .error "TypeError"

/-- The two dedup folds above, abstracted over the row type, the key
extraction and the key equality, so their behaviour can be characterized
once.  `dedupLastStep` is the fold step of the author (last-wins) pass. -/
def dedupLastStep {α κ : Type} (key : α → κ) (eq : κ → κ → Bool)
    (acc : List α) (a : α) : List α :=
  if acc.any fun b => eq (key b) (key a) then
    acc.map fun b => if eq (key b) (key a) then a else b
  else acc ++ [a]

/-- The fold step of the authorship (first-wins, counting) pass. -/
def dedupFirstStep {α κ : Type} (key : α → κ) (eq : κ → κ → Bool)
    (acc : List α × Nat) (a : α) : List α × Nat :=
  if acc.1.any fun b => eq (key b) (key a) then (acc.1, acc.2 + 1)
  else (acc.1 ++ [a], acc.2)

/-- SQL `COALESCE(a, b)`, the merge primitive of the three upsert
statements: the incoming value unless it is null. -/
def coalesce (a b : Py) : Py :=
  if a.isNone then b else a

/-- Merge of an incoming papers row `v` over the stored row `t`, transcribed
column by column from the `ON CONFLICT (paper_id) DO UPDATE SET` clause of
`upsert_papers` (lines 534-572 of import_papers.py). -/
def mergePaper (v t : PaperRow) : PaperRow where
  paper_id := t.paper_id
  doi := coalesce v.doi t.doi
  title := v.title
  publication_year := coalesce v.publication_year t.publication_year
  publication_date := coalesce v.publication_date t.publication_date
  paper_type := coalesce v.paper_type t.paper_type
  language := coalesce v.language t.language
  journal_name := coalesce v.journal_name t.journal_name
  publisher := coalesce v.publisher t.publisher
  journal_issn := coalesce v.journal_issn t.journal_issn
  is_core_journal := coalesce v.is_core_journal t.is_core_journal
  is_open_access := coalesce v.is_open_access t.is_open_access
  oa_status := coalesce v.oa_status t.oa_status
  pdf_url := coalesce v.pdf_url t.pdf_url
  landing_page_url := coalesce v.landing_page_url t.landing_page_url
  license := coalesce v.license t.license
  author_count := v.author_count
  first_author_name := coalesce v.first_author_name t.first_author_name
  corresponding_author_name :=
    coalesce v.corresponding_author_name t.corresponding_author_name
  institution_count := v.institution_count
  country_count := v.country_count
  first_institution := coalesce v.first_institution t.first_institution
  first_country := coalesce v.first_country t.first_country
  cited_by_count := v.cited_by_count
  referenced_works_count := v.referenced_works_count
  fwci := coalesce v.fwci t.fwci
  citation_percentile := coalesce v.citation_percentile t.citation_percentile
  primary_topic := coalesce v.primary_topic t.primary_topic
  top_concept_1 := coalesce v.top_concept_1 t.top_concept_1
  top_concept_2 := coalesce v.top_concept_2 t.top_concept_2
  top_concept_3 := coalesce v.top_concept_3 t.top_concept_3
  keywords := coalesce v.keywords t.keywords
  is_retracted := v.is_retracted
  is_paratext := v.is_paratext
  has_abstract := v.has_abstract
  ai_relevance_score := coalesce v.ai_relevance_score t.ai_relevance_score
  has_ai_field := coalesce v.has_ai_field t.has_ai_field
  created_date := coalesce v.created_date t.created_date
  updated_date := v.updated_date

/-- Merge of an incoming authors row over the stored row, transcribed from
the `ON CONFLICT (author_id) DO UPDATE SET` clause of `upsert_authors`
(lines 462-467). -/
def mergeAuthor (v t : AuthorRow) : AuthorRow where
  author_id := t.author_id
  display_name := coalesce v.display_name t.display_name
  orcid := coalesce v.orcid t.orcid
  primary_institution := coalesce v.primary_institution t.primary_institution
  primary_country := coalesce v.primary_country t.primary_country

/-- Merge of an incoming paper_authors row over the stored row, transcribed
from the `ON CONFLICT (paper_id, author_id) DO UPDATE SET` clause of
`upsert_paper_authors` (lines 688-696). -/
def mergePaperAuthor (v t : PaperAuthorRow) : PaperAuthorRow where
  paper_id := t.paper_id
  author_id := t.author_id
  author_position := v.author_position
  author_sequence := v.author_sequence
  is_corresponding := v.is_corresponding
  institution_names := coalesce v.institution_names t.institution_names
  institution_ids := coalesce v.institution_ids t.institution_ids
  countries := coalesce v.countries t.countries
  raw_affiliation_strings :=
    coalesce v.raw_affiliation_strings t.raw_affiliation_strings

/-- Stored papers row: the data columns plus the `ingested_at` timestamp the
SQL sets to CURRENT_TIMESTAMP on update (on insert the schema default, also
the current time, applies; schema.sql is outside the modelled source and
every claim excludes timestamp columns). -/
structure StoredPaper where
  row : PaperRow
  ingested_at : Nat

/-- Stored authors row plus its `updated_at` timestamp. -/
structure StoredAuthor where
  row : AuthorRow
  updated_at : Nat

/-- Stored paper_authors row plus its `created_at` timestamp (which the SQL
rewrites to CURRENT_TIMESTAMP even on update). -/
structure StoredPaperAuthor where
  row : PaperAuthorRow
  created_at : Nat

/-- Association-list lookup under an explicit key equality, the model of a
keyed table. -/
def lookupBy {κ ρ : Type} (eq : κ → κ → Bool) (k : κ) :
    List (κ × ρ) → Option ρ
  | [] => Option.none
  | (k2, r) :: rest => if eq k2 k then some r else lookupBy eq k rest

/-- Replace the value stored under the first matching key. -/
def replaceBy {κ ρ : Type} (eq : κ → κ → Bool) (k : κ) (r : ρ) :
    List (κ × ρ) → List (κ × ρ)
  | [] => []
  | (k2, r2) :: rest =>
    if eq k2 k then (k2, r) :: rest else (k2, r2) :: replaceBy eq k r rest

/-- One row of an `INSERT ... ON CONFLICT ... DO UPDATE` statement: update in
place when the key exists, append otherwise; the Bool is the `(xmax = 0)`
inserted flag the statement RETURNs for that row. -/
def upsertRowBy {κ ρ : Type} (eq : κ → κ → Bool) (k : κ) (ins : ρ)
    (upd : ρ → ρ) (t : List (κ × ρ)) : List (κ × ρ) × Bool :=
  match lookupBy eq k t with
  | some old => (replaceBy eq k (upd old) t, false)
  | Option.none => (t ++ [(k, ins)], true)

/-- One row of a batch statement, abstracted over how the write's key,
insert value and update function derive from the incoming row; the three
table-specific upserts below are instances. -/
def upsertStep {κ ρ α : Type} (eq : κ → κ → Bool) (keyOf : α → κ)
    (ins : α → ρ) (upd : α → ρ → ρ) :
    List (κ × ρ) → α → List (κ × ρ) × Bool :=
  fun t v => upsertRowBy eq (keyOf v) (ins v) (fun old => upd v old) t

/-- The papers table, keyed by the paper_id column. -/
abbrev PaperTable := List (Py × StoredPaper)

/-- The authors table, keyed by the author_id column. -/
abbrev AuthorTable := List (Py × StoredAuthor)

/-- The paper_authors table, keyed by the (paper_id, author_id) columns. -/
abbrev PaperAuthorTable := List ((Py × Py) × StoredPaperAuthor)

/-- Key equality on (paper_id, author_id) pairs. -/
def eqbPair (a b : Py × Py) : Bool :=
  Py.eqb a.1 b.1 && Py.eqb a.2 b.2

/-- Upsert of one papers row. -/
def upsertPaperRow (now : Nat) (t : PaperTable) (v : PaperRow) :
    PaperTable × Bool :=
  upsertRowBy Py.eqb v.paper_id ⟨v, now⟩
    (fun old => ⟨mergePaper v old.row, now⟩) t

/-- Upsert of one authors row. -/
def upsertAuthorRow (now : Nat) (t : AuthorTable) (v : AuthorRow) :
    AuthorTable × Bool :=
  upsertRowBy Py.eqb v.author_id ⟨v, now⟩
    (fun old => ⟨mergeAuthor v old.row, now⟩) t

/-- Upsert of one paper_authors row. -/
def upsertPaperAuthorRow (now : Nat) (t : PaperAuthorTable)
    (v : PaperAuthorRow) : PaperAuthorTable × Bool :=
  upsertRowBy eqbPair (v.paper_id, v.author_id) ⟨v, now⟩
    (fun old => ⟨mergePaperAuthor v old.row, now⟩) t

/-- The counters of the `ImportStats` class of import_papers.py. -/
structure ImportStats where
  papers_inserted : Nat
  papers_updated : Nat
  papers_failed : Nat
  authors_inserted : Nat
  authors_updated : Nat
  authors_failed : Nat
  paper_authors_inserted : Nat
  paper_authors_updated : Nat
  paper_authors_failed : Nat
  total_papers_processed : Nat

/-- All-zero statistics, the freshly constructed `ImportStats()`. -/
def ImportStats.init : ImportStats :=
  ⟨0, 0, 0, 0, 0, 0, 0, 0, 0, 0⟩

/-- One batch statement over a keyed table: the final table and the counts
of rows the RETURNING clause classified as inserted and as updated.  The
batches the pipeline issues never repeat a key (papers batches are
singletons, the other two are deduplicated first), so the set-based
`execute_values` statement and this row-by-row fold agree. -/
def runBatch {κ ρ α : Type} (step : List (κ × ρ) → α → List (κ × ρ) × Bool)
    (t : List (κ × ρ)) (rows : List α) : List (κ × ρ) × Nat × Nat :=
  rows.foldl (fun acc a =>
    let r := step acc.1 a
    (r.1, if r.2 then acc.2.1 + 1 else acc.2.1,
      if r.2 then acc.2.2 else acc.2.2 + 1)) (t, 0, 0)

/-- Environment choice of which entity writes fail with a database error
(the model of an externally caused PostgresError such as a constraint
violation or lost connection during `execute_values`). -/
structure FailSpec where
  authorsFail : Bool
  papersFail : Bool
  paperAuthorsFail : Bool

/-- The failure-free environment. -/
def noFail : FailSpec :=
  ⟨false, false, false⟩

/-- The function `upsert_authors` (lines 439-503): early return on an empty
batch, author dedup (whose TypeError on an unhashable key escapes the
try block without touching stats), then the batch write.  On a database
error the transaction is rolled back — the table reverts to its state at
entry because everything earlier was already committed — the failed counter
grows by the size of the deduplicated batch, and the error propagates. -/
def upsert_authors (fail : Bool) (now : Nat) (table : AuthorTable)
    (authors_data : List AuthorRow) (stats : ImportStats) :
    Except (AuthorTable × ImportStats) (AuthorTable × ImportStats) :=
  if authors_data.isEmpty then .ok (table, stats)
  else
    match dedup_authors authors_data with
    | .error _ => .error (table, stats)
    | .ok deduped =>
      if fail then
        .error (table,
          { stats with authors_failed := stats.authors_failed + deduped.length })
      else
        let r := runBatch (upsertAuthorRow now) table deduped
        .ok (r.1,
          { stats with
            authors_inserted := stats.authors_inserted + r.2.1
            authors_updated := stats.authors_updated + r.2.2 })

/-- The function `upsert_papers` (lines 506-643): no dedup pass; on a
database error the batch rolls back as a unit, `papers_failed` grows by the
batch size, and the error propagates. -/
def upsert_papers (fail : Bool) (now : Nat) (table : PaperTable)
    (papers_data : List PaperRow) (stats : ImportStats) :
    Except (PaperTable × ImportStats) (PaperTable × ImportStats) :=
  if papers_data.isEmpty then .ok (table, stats)
  else if fail then
    .error (table,
      { stats with papers_failed := stats.papers_failed + papers_data.length })
  else
    let r := runBatch (upsertPaperRow now) table papers_data
    .ok (r.1,
      { stats with
        papers_inserted := stats.papers_inserted + r.2.1
        papers_updated := stats.papers_updated + r.2.2 })

/-- The function `upsert_paper_authors` (lines 646-736): early return on an
empty batch, first-wins dedup with a duplicates-removed count, early return
when nothing survives, then the batch write with rollback semantics and a
failed count equal to the size of the written (deduplicated) batch. -/
def upsert_paper_authors (fail : Bool) (now : Nat) (table : PaperAuthorTable)
    (paper_authors_data : List PaperAuthorRow) (stats : ImportStats) :
    Except (PaperAuthorTable × ImportStats) (PaperAuthorTable × ImportStats) :=
  if paper_authors_data.isEmpty then .ok (table, stats)
  else
    match dedup_paper_authors paper_authors_data with
    | .error _ => .error (table, stats)
    | .ok (unique_data, _duplicates_removed) =>
      if unique_data.isEmpty then .ok (table, stats)
      else if fail then
        .error (table,
          { stats with
            paper_authors_failed :=
              stats.paper_authors_failed + unique_data.length })
      else
        let r := runBatch (upsertPaperAuthorRow now) table unique_data
        .ok (r.1,
          { stats with
            paper_authors_inserted := stats.paper_authors_inserted + r.2.1
            paper_authors_updated := stats.paper_authors_updated + r.2.2 })

/-- The three tables owned by the store. -/
structure Store where
  authors : AuthorTable
  papers : PaperTable
  paper_authors : PaperAuthorTable

/-- The empty store. -/
def Store.empty : Store :=
  ⟨[], [], []⟩

/-- The author rows collected by the authorship loop of `process_paper`
(lines 769-773): one transformed row per authorship sub-record whose
transform succeeded. -/
def authorsBatchOf (authorshipElems : List Py) : List AuthorRow :=
  authorshipElems.foldl (fun acc a =>
    match transform_author_data a with
    | some r => acc ++ [r]
    | Option.none => acc) []

/-- The paper-author rows collected by the same loop (lines 776-780), with
the 1-based enumeration index as the sequence. -/
def paperAuthorsBatchOf (paper_id : Py) (authorshipElems : List Py) :
    List PaperAuthorRow :=
  (authorshipElems.enum.map fun ia => (ia.1 + 1, ia.2)).foldl (fun acc ia =>
    match transform_paper_author_data paper_id ia.2 (Int.ofNat ia.1) with
    | some r => acc ++ [r]
    | Option.none => acc) []

/-- Body of `process_paper` after a successful transform, inside its
try block (lines 762-797).  An exception carries the store and stats at the
point it was raised (earlier upserts stay committed). -/
def processPaperRest (fs : FailSpec) (now : Nat) (paper : Py)
    (paper_data : PaperRow) (store : Store) (stats : ImportStats) :
    Except (Store × ImportStats) (Store × ImportStats) := do
  match paper_data.title.slice50 with
  | .error _ => throw (store, stats)
  | .ok _ => pure ()
  let authorshipElems ←
    match rawAuthorships paper with
    | .ok l => pure l
    | .error _ => throw (store, stats)
  let authors_data := authorsBatchOf authorshipElems
  let paper_authors_data := paperAuthorsBatchOf paper_data.paper_id authorshipElems
  let (authorsTable, stats) ←
    if authors_data.isEmpty then pure (store.authors, stats)
    else
      match upsert_authors fs.authorsFail now store.authors authors_data stats with
      | .ok r => pure r
      | .error (t, s) => throw ({ store with authors := t }, s)
  let store := { store with authors := authorsTable }
  let (papersTable, stats) ←
    match upsert_papers fs.papersFail now store.papers [paper_data] stats with
    | .ok r => pure r
    | .error (t, s) => throw ({ store with papers := t }, s)
  let store := { store with papers := papersTable }
  let (paTable, stats) ←
    if paper_authors_data.isEmpty then pure (store.paper_authors, stats)
    else
      match upsert_paper_authors fs.paperAuthorsFail now store.paper_authors
          paper_authors_data stats with
      | .ok r => pure r
      | .error (t, s) => throw ({ store with paper_authors := t }, s)
  pure ({ store with paper_authors := paTable }, stats)

/-- The function `process_paper` (lines 739-802): a failed transform counts
the paper as failed and returns False; otherwise the three upserts run in
order; any exception is caught, the paper is counted as failed, and False is
returned; on success `total_papers_processed` grows. -/
def process_paper (fs : FailSpec) (now : Nat) (paper : Py) (store : Store)
    (stats : ImportStats) : Bool × Store × ImportStats :=
  match transform_paper_data paper with
  | Option.none =>
    (false, store, { stats with papers_failed := stats.papers_failed + 1 })
  | some paper_data =>
    match processPaperRest fs now paper paper_data store stats with
    | .ok (st, s) =>
      (true, st,
        { s with total_papers_processed := s.total_papers_processed + 1 })
    | .error (st, s) =>
      (false, st, { s with papers_failed := s.papers_failed + 1 })

/-- The per-paper loop of `main` (lines 893-902, likewise
`load_papers_to_database` of pipeline.py): every record is processed in
order and a failed paper never stops the loop. -/
def load_papers (fs : FailSpec) (now : Nat) (papers : List Py)
    (store : Store) (stats : ImportStats) : Store × ImportStats :=
  papers.foldl (fun acc p =>
    let r := process_paper fs now p acc.1 acc.2
    (r.2.1, r.2.2)) (store, stats)

/-- Key presence in a keyed table. -/
def containsBy {κ ρ : Type} (eq : κ → κ → Bool) (k : κ)
    (t : List (κ × ρ)) : Bool :=
  (lookupBy eq k t).isSome

/-- The authors rows a failure-free `process_paper` run on `p` writes:
empty when the transform, the title slice, the authorship iteration or the
author dedup fails, or when the collected batch is empty; otherwise the
deduplicated batch. -/
def recordAuthorWrites (p : Py) : List AuthorRow :=
  match transform_paper_data p with
  | Option.none => []
  | some row =>
    match row.title.slice50 with
    | .error _ => []
    | .ok _ =>
      match rawAuthorships p with
      | .error _ => []
      | .ok elems =>
        let A := authorsBatchOf elems
        if A.isEmpty then []
        else
          match dedup_authors A with
          | .error _ => []
          | .ok dd => dd

/-- The papers rows a failure-free `process_paper` run on `p` writes: the
single transformed row, unless an earlier step (transform, slice, iteration,
or the author dedup that precedes the papers write) raised. -/
def recordPaperWrites (p : Py) : List PaperRow :=
  match transform_paper_data p with
  | Option.none => []
  | some row =>
    match row.title.slice50 with
    | .error _ => []
    | .ok _ =>
      match rawAuthorships p with
      | .error _ => []
      | .ok elems =>
        let A := authorsBatchOf elems
        if A.isEmpty then [row]
        else
          match dedup_authors A with
          | .error _ => []
          | .ok _ => [row]

/-- The paper-author rows a failure-free `process_paper` run on `p` writes:
the first-wins-deduplicated batch, unless any earlier step raised or either
batch guard skipped the write. -/
def recordPAWrites (p : Py) : List PaperAuthorRow :=
  match transform_paper_data p with
  | Option.none => []
  | some row =>
    match row.title.slice50 with
    | .error _ => []
    | .ok _ =>
      match rawAuthorships p with
      | .error _ => []
      | .ok elems =>
        let A := authorsBatchOf elems
        let goOn : Bool := A.isEmpty || (dedup_authors A matches .ok _)
        if ¬ goOn then []
        else
          let PA := paperAuthorsBatchOf row.paper_id elems
          if PA.isEmpty then []
          else
            match dedup_paper_authors PA with
            | .error _ => []
            | .ok (uniq, _) => if uniq.isEmpty then [] else uniq

/-- The authors rows a failure-free load of a batch writes, in order. -/
def batchAuthorWrites (batch : List Py) : List AuthorRow :=
  batch.flatMap recordAuthorWrites

/-- The papers rows a failure-free load of a batch writes, in order. -/
def batchPaperWrites (batch : List Py) : List PaperRow :=
  batch.flatMap recordPaperWrites

/-- The paper-author rows a failure-free load of a batch writes, in order. -/
def batchPAWrites (batch : List Py) : List PaperAuthorRow :=
  batch.flatMap recordPAWrites

/-- The effect of a write sequence on the stored value under one key:
insert on the first write, merge-update on the rest. -/
def applyStoredKey {ρ σ : Type} (ins : ρ → σ) (upd : ρ → σ → σ)
    (ws : List ρ) (s : Option σ) : Option σ :=
  ws.foldl (fun s v => some (match s with
    | Option.none => ins v
    | some r => upd v r)) s

/-- The same per-key fold on the timestamp-free row values. -/
def applyRowKey {ρ : Type} (m : ρ → ρ → ρ) (ws : List ρ) (s : Option ρ) :
    Option ρ :=
  ws.foldl (fun s v => some (match s with
    | Option.none => v
    | some r => m v r)) s

end ImportPapers

namespace QualityTests

/-!
Model of the quality-test runner of src/database/test_papers_table.py.
The SQL-file parsing mechanics are outside the modelled scope; a check
arrives as a `CheckSpec` carrying its name, description, the outcome of
executing its (threshold-substituted) SQL against the store — either a
failure count with sample rows, or a raised database error — and its
execution time on the model clock.
-/

/-- Mirror of the `TestResult` class: the fields `_run_test_category` fills
in for one executed check. -/
structure TestResult where
  test_name : String
  category : String
  description : String
  passed : Bool
  failure_count : Nat
  sample_records : List String
  error_message : Option String
  execution_time : Nat

/-- One check to execute: its identity and what executing its query yields. -/
structure CheckSpec where
  name : String
  description : String
  outcome : Except String (Nat × List String)
  duration : Nat

/-- The configuration keys the runner consults while executing and
reporting. -/
structure RunnerConfig where
  continue_on_failure : Bool
  max_sample_records : Nat

/-- Execution of one check inside the try block of `_run_test_category`
(lines 252-272): on success the result records the failure count, up to
`max_sample_records` samples (fetched only when the count is nonzero), the
execution time, and `passed := failure_count == 0`; on an error the result
keeps `failure_count = 0` and `execution_time = 0`, records the message and
is marked failed. -/
def runOneCheck (cfg : RunnerConfig) (category : String) (c : CheckSpec) :
    TestResult :=
  match c.outcome with
  | .ok (count, samples) =>
    { test_name := c.name
      category := category
      description := c.description
      passed := count = 0
      failure_count := count
      sample_records := if count > 0 then samples.take cfg.max_sample_records else []
      error_message := Option.none
      execution_time := c.duration }
  | .error e =>
    { test_name := c.name
      category := category
      description := c.description
      passed := false
      failure_count := 0
      sample_records := []
      error_message := some e
      execution_time := 0 }

/-- The check loop of `_run_test_category` (lines 238-280): every executed
check appends its result, and the loop stops after a failed check when
`continue_on_failure` is off. -/
def runCategory (cfg : RunnerConfig) (category : String) :
    List CheckSpec → List TestResult
  | [] => []
  | c :: rest =>
    let r := runOneCheck cfg category c
    if ¬ r.passed ∧ ¬ cfg.continue_on_failure then [r]
    else r :: runCategory cfg category rest

/-- The function `run_all_tests` (lines 334-369): run the categories in
order, collect every produced result, and return the conjunction of the
individual pass flags. -/
def run_all_tests (cfg : RunnerConfig)
    (categories : List (String × List CheckSpec)) :
    List TestResult × Bool :=
  let results := categories.flatMap fun cat => runCategory cfg cat.1 cat.2
  (results, results.all fun r => r.passed)

/-- One per-check block of the report `_generate_report` emits
(lines 414-419): status, name, failure count and execution time, written for
every result whether it passed or failed. -/
structure ReportEntry where
  status_pass : Bool
  test_name : String
  failure_count : Nat
  execution_time : Nat

/-- The entry `_generate_report` writes for one result. -/
def mkEntry (r : TestResult) : ReportEntry :=
  ⟨r.passed, r.test_name, r.failure_count, r.execution_time⟩

/-- The category grouping of `_generate_report` (lines 394-399): categories
in first-seen order. -/
def categoriesOf (results : List TestResult) : List String :=
  results.foldl (fun acc r =>
    if acc.contains r.category then acc else acc ++ [r.category]) []

/-- The per-check blocks of the generated report, in the order
`_generate_report` walks them (category by category). -/
def reportEntries (results : List TestResult) : List ReportEntry :=
  (categoriesOf results).flatMap fun c =>
    (results.filter fun r => r.category == c).map mkEntry

end QualityTests

namespace ImportPapers

/-- The papers columns of the C2 claim (the name/institution/country/topic/
concepts/keywords/license/DOI family), all carrying a
`COALESCE(EXCLUDED.f, papers.f)` merge in `upsert_papers`. -/
def paperDescriptiveFields : List (PaperRow → Py) :=
  [fun r => r.doi, fun r => r.journal_name, fun r => r.first_author_name,
   fun r => r.corresponding_author_name, fun r => r.first_institution,
   fun r => r.first_country, fun r => r.primary_topic,
   fun r => r.top_concept_1, fun r => r.top_concept_2,
   fun r => r.top_concept_3, fun r => r.keywords, fun r => r.license]

/-- The authors columns of the C2 claim, all carrying a
`COALESCE(EXCLUDED.f, authors.f)` merge in `upsert_authors`. -/
def authorDescriptiveFields : List (AuthorRow → Py) :=
  [fun r => r.display_name, fun r => r.primary_institution,
   fun r => r.primary_country]

/-- The papers columns of the C3 claim (the five counts and the three
boolean status flags), all merged as plain `EXCLUDED.f` in `upsert_papers`. -/
def paperMonotonicFields : List (PaperRow → Py) :=
  [fun r => r.cited_by_count, fun r => r.referenced_works_count,
   fun r => r.author_count, fun r => r.institution_count,
   fun r => r.country_count, fun r => r.is_retracted,
   fun r => r.is_paratext, fun r => r.has_abstract]

/-- Example raw record: a validly identified paper carrying a negative
citation count. -/
def negCountRecord : Py :=
  .dict [("id", .str "https://openalex.org/W9"), ("title", .str "T"),
    ("cited_by_count", .int (-1))]

/-- Example raw record: a validly identified paper whose `concepts` entry is
a list holding a non-dict element. -/
def malformedConceptsRecord : Py :=
  .dict [("id", .str "https://openalex.org/W1"), ("title", .str "T"),
    ("concepts", .list [.int 0])]

/-- Example raw record: a minimal valid paper. -/
def minimalRecordW1 : Py :=
  .dict [("id", .str "https://openalex.org/W1"), ("title", .str "T")]

/-- Example authorship sub-record for author A1 with one institution. -/
def annAuthorship (inst : String) : Py :=
  .dict [("author", .dict [("id", .str "https://openalex.org/A1"),
           ("display_name", .str "Ann")]),
    ("author_position", .str "first"),
    ("institutions", .list [.dict [("display_name", .str inst)]])]

/-- Example raw record: one paper listing the same author twice with
differing institutions ("X" first, "Y" second). -/
def dupAuthorRecord : Py :=
  .dict [("id", .str "https://openalex.org/W1"), ("title", .str "T"),
    ("authorships", .list [annAuthorship "X", annAuthorship "Y"])]

/-- All-null paper row, used as an `Option.getD` default when a theorem
needs the row a concrete transform produced. -/
def defaultPaperRow : PaperRow where
  paper_id := .none
  doi := .none
  title := .none
  publication_year := .none
  publication_date := .none
  paper_type := .none
  language := .none
  journal_name := .none
  publisher := .none
  journal_issn := .none
  is_core_journal := .none
  is_open_access := .none
  oa_status := .none
  pdf_url := .none
  landing_page_url := .none
  license := .none
  author_count := .none
  first_author_name := .none
  corresponding_author_name := .none
  institution_count := .none
  country_count := .none
  first_institution := .none
  first_country := .none
  cited_by_count := .none
  referenced_works_count := .none
  fwci := .none
  citation_percentile := .none
  primary_topic := .none
  top_concept_1 := .none
  top_concept_2 := .none
  top_concept_3 := .none
  keywords := .none
  is_retracted := .none
  is_paratext := .none
  has_abstract := .none
  ai_relevance_score := .none
  has_ai_field := .none
  created_date := .none
  updated_date := .none

end ImportPapers

/-! ## Theorems -/

namespace ImportPapers

mutual

theorem Py.eqb_refl : ∀ (a : Py), Py.eqb a a = true
  | .none => rfl
  | .bool b => by simp [Py.eqb, Py.asRat]
  | .int n => by simp [Py.eqb, Py.asRat]
  | .float q => by simp [Py.eqb, Py.asRat]
  | .str s => by simp [Py.eqb]
  | .list xs => by simp [Py.eqb]; exact Py.eqbList_refl xs
  | .dict kvs => by simp [Py.eqb]; exact Py.eqbKVs_refl kvs

theorem Py.eqbList_refl : ∀ (xs : List Py), Py.eqbList xs xs = true
  | [] => rfl
  | x :: xs => by
    simp [Py.eqbList]
    exact ⟨Py.eqb_refl x, Py.eqbList_refl xs⟩

theorem Py.eqbKVs_refl : ∀ (kvs : List (String × Py)), Py.eqbKVs kvs kvs = true
  | [] => rfl
  | (k, v) :: kvs => by
    simp [Py.eqbKVs]
    exact ⟨Py.eqb_refl v, Py.eqbKVs_refl kvs⟩

end

mutual

theorem Py.eqb_symm : ∀ (a b : Py), Py.eqb a b = Py.eqb b a
  | a, b => by
    cases a <;> cases b <;>
      simp [Py.eqb, Py.asRat, eq_comm] <;>
      first
        | exact Py.eqbList_symm ..
        | exact Py.eqbKVs_symm ..

theorem Py.eqbList_symm : ∀ (xs ys : List Py), Py.eqbList xs ys = Py.eqbList ys xs
  | [], [] => rfl
  | [], _ :: _ => rfl
  | _ :: _, [] => rfl
  | x :: xs, y :: ys => by
    simp [Py.eqbList]
    rw [Py.eqb_symm x y, Py.eqbList_symm xs ys]

theorem Py.eqbKVs_symm : ∀ (xs ys : List (String × Py)),
    Py.eqbKVs xs ys = Py.eqbKVs ys xs
  | [], [] => rfl
  | [], _ :: _ => rfl
  | _ :: _, [] => rfl
  | (k, v) :: xs, (l, w) :: ys => by
    simp [Py.eqbKVs]
    rw [Py.eqb_symm v w, Py.eqbKVs_symm xs ys]
    simp [eq_comm]

end

mutual

theorem Py.eqb_trans : ∀ (a b c : Py), Py.eqb a b = true → Py.eqb b c = true →
    Py.eqb a c = true
  | a, b, c => by
    cases a <;> cases b <;> cases c <;>
      simp_all [Py.eqb, Py.asRat] <;>
      first
        | exact fun h1 h2 => Py.eqbList_trans _ _ _ h1 h2
        | exact fun h1 h2 => Py.eqbKVs_trans _ _ _ h1 h2

theorem Py.eqbList_trans : ∀ (xs ys zs : List Py), Py.eqbList xs ys = true →
    Py.eqbList ys zs = true → Py.eqbList xs zs = true
  | [], [], [] => fun _ _ => rfl
  | x :: xs, y :: ys, z :: zs => by
    simp [Py.eqbList, and_assoc]
    rintro h1 h2 h3 h4
    exact ⟨Py.eqb_trans x y z h1 h3, Py.eqbList_trans xs ys zs h2 h4⟩
  | [], [], _ :: _ => by simp [Py.eqbList]
  | [], _ :: _, _ => by simp [Py.eqbList]
  | _ :: _, [], _ => by simp [Py.eqbList]
  | _ :: _, _ :: _, [] => by simp [Py.eqbList]

theorem Py.eqbKVs_trans : ∀ (xs ys zs : List (String × Py)),
    Py.eqbKVs xs ys = true → Py.eqbKVs ys zs = true → Py.eqbKVs xs zs = true
  | [], [], [] => fun _ _ => rfl
  | (k, v) :: xs, (l, w) :: ys, (m, u) :: zs => by
    simp [Py.eqbKVs, and_assoc]
    rintro h1 h2 h3 h4 h5 h6
    exact ⟨h1.trans h4, Py.eqb_trans v w u h2 h5, Py.eqbKVs_trans xs ys zs h3 h6⟩
  | [], [], _ :: _ => by simp [Py.eqbKVs]
  | [], _ :: _, _ => by simp [Py.eqbKVs]
  | _ :: _, [], _ => by simp [Py.eqbKVs]
  | _ :: _, _ :: _, [] => by simp [Py.eqbKVs]

end

theorem eqbPair_refl (a : Py × Py) : eqbPair a a = true := by
  simp [eqbPair, Py.eqb_refl]

theorem eqbPair_symm (a b : Py × Py) : eqbPair a b = eqbPair b a := by
  simp [eqbPair]
  rw [Py.eqb_symm a.1 b.1, Py.eqb_symm a.2 b.2]

theorem eqbPair_trans (a b c : Py × Py) (h1 : eqbPair a b = true)
    (h2 : eqbPair b c = true) : eqbPair a c = true := by
  simp [eqbPair] at h1 h2 ⊢
  exact ⟨Py.eqb_trans _ _ _ h1.1 h2.1, Py.eqb_trans _ _ _ h1.2 h2.2⟩

section KeyedTable

variable {κ ρ : Type} (eq : κ → κ → Bool)

theorem lookupBy_append_self (hrefl : ∀ k, eq k k = true) (k : κ) (r : ρ)
    (t : List (κ × ρ)) (h : lookupBy eq k t = Option.none) :
    lookupBy eq k (t ++ [(k, r)]) = some r := by
  induction t with
  | nil => simp [lookupBy, hrefl]
  | cons kv rest ih =>
    obtain ⟨k2, r2⟩ := kv
    by_cases hk : eq k2 k
    · simp [lookupBy, hk] at h
    · simp only [List.cons_append]
      simp [lookupBy, hk] at h ⊢
      exact ih h

theorem lookupBy_replaceBy_self (k : κ) (r : ρ) (t : List (κ × ρ))
    (h : (lookupBy eq k t).isSome) :
    lookupBy eq k (replaceBy eq k r t) = some r := by
  induction t with
  | nil => simp [lookupBy] at h
  | cons kv rest ih =>
    obtain ⟨k2, r2⟩ := kv
    by_cases hk : eq k2 k
    · simp [replaceBy, lookupBy, hk]
    · simp [replaceBy, lookupBy, hk] at h ⊢
      exact ih h

end KeyedTable

theorem upsert_papers_single (now : Nat) (table : PaperTable)
    (st : ImportStats) (v : PaperRow) :
    ∃ st2, upsert_papers false now table [v] st =
      .ok ((upsertPaperRow now table v).1, st2) := by
  cases h : upsertPaperRow now table v with
  | mk t2 flag =>
    cases flag <;> simp [upsert_papers, runBatch, h] <;> exact ⟨_, rfl⟩

theorem upsert_authors_single (now : Nat) (table : AuthorTable)
    (st : ImportStats) (v : AuthorRow) (hh : v.author_id.hashable = true) :
    ∃ st2, upsert_authors false now table [v] st =
      .ok ((upsertAuthorRow now table v).1, st2) := by
  have hd : dedup_authors [v] = .ok [v] := by
    simp [dedup_authors, hh, dedupAuthorsLastWins]
  cases h : upsertAuthorRow now table v with
  | mk t2 flag =>
    cases flag <;> simp [upsert_authors, hd, runBatch, h] <;> exact ⟨_, rfl⟩

/-- C3: for every monotonic/derived papers column — the five counts and the
boolean status flags — the stored value after an upsert equals the incoming
value unconditionally (insert or update, null or not), because the SQL SET
clause assigns plain `EXCLUDED.f` for exactly these columns. -/
theorem monotonic_fields_always_overwritten
    (f : PaperRow → Py) (hf : f ∈ paperMonotonicFields)
    (now : Nat) (table : PaperTable) (st : ImportStats) (v : PaperRow) :
    ∃ t2 st2 sp,
      upsert_papers false now table [v] st = .ok (t2, st2) ∧
      lookupBy Py.eqb v.paper_id t2 = some sp ∧
      f sp.row = f v := by
  obtain ⟨st2, hrun⟩ := upsert_papers_single now table st v
  simp [paperMonotonicFields] at hf
  cases hl : lookupBy Py.eqb v.paper_id table with
  | none =>
    have hrow : upsertPaperRow now table v =
        (table ++ [(v.paper_id, ⟨v, now⟩)], true) := by
      simp [upsertPaperRow, upsertRowBy, hl]
    refine ⟨_, st2, ⟨v, now⟩, hrun, ?_, ?_⟩
    · rw [hrow]
      exact lookupBy_append_self Py.eqb Py.eqb_refl v.paper_id _ table hl
    · rcases hf with rfl | rfl | rfl | rfl | rfl | rfl | rfl | rfl <;> rfl
  | some old =>
    have hrow : upsertPaperRow now table v =
        (replaceBy Py.eqb v.paper_id ⟨mergePaper v old.row, now⟩ table, false) := by
      simp [upsertPaperRow, upsertRowBy, hl]
    refine ⟨_, st2, ⟨mergePaper v old.row, now⟩, hrun, ?_, ?_⟩
    · rw [hrow]
      exact lookupBy_replaceBy_self Py.eqb v.paper_id _ table (by simp [hl])
    · rcases hf with rfl | rfl | rfl | rfl | rfl | rfl | rfl | rfl <;> rfl

/-- Witness for C3 at a concrete field and input. -/
theorem monotonic_fields_always_overwritten_witness :
    (fun r : PaperRow => r.cited_by_count) ∈ paperMonotonicFields ∧
    ∃ t2 st2 sp,
      upsert_papers false 7 [] [
        { paper_id := .str "W1", doi := .none, title := .str "T",
          publication_year := .none, publication_date := .none,
          paper_type := .none, language := .none, journal_name := .none,
          publisher := .none, journal_issn := .none, is_core_journal := .none,
          is_open_access := .none, oa_status := .none, pdf_url := .none,
          landing_page_url := .none, license := .none,
          author_count := .int 0, first_author_name := .none,
          corresponding_author_name := .none, institution_count := .int 0,
          country_count := .int 0, first_institution := .none,
          first_country := .none, cited_by_count := .int 3,
          referenced_works_count := .int 0, fwci := .none,
          citation_percentile := .none, primary_topic := .none,
          top_concept_1 := .none, top_concept_2 := .none,
          top_concept_3 := .none, keywords := .none,
          is_retracted := .bool false, is_paratext := .bool false,
          has_abstract := .bool false, ai_relevance_score := .float 0,
          has_ai_field := .bool false, created_date := .none,
          updated_date := .none }] ImportStats.init = .ok (t2, st2) ∧
      lookupBy Py.eqb (.str "W1") t2 = some sp ∧
      sp.row.cited_by_count = Py.int 3 := by
  constructor
  · simp [paperMonotonicFields]
  · exact monotonic_fields_always_overwritten
      (fun r => r.cited_by_count) (by simp [paperMonotonicFields]) 7 [] ImportStats.init _

/-- C2: for every descriptive/enrichment column of the papers and authors
tables (name, institution, country, topic, concepts, keywords, license,
DOI), an upsert over an existing row keeps the stored value when the
incoming value is null and replaces it when the incoming value is non-null,
because the SQL SET clause assigns `COALESCE(EXCLUDED.f, t.f)` for exactly
these columns. -/
theorem descriptive_fields_coalesce_merge :
    (∀ (f : PaperRow → Py), f ∈ paperDescriptiveFields →
      ∀ (now : Nat) (table : PaperTable) (st : ImportStats) (v : PaperRow)
        (old : StoredPaper),
        lookupBy Py.eqb v.paper_id table = some old →
        ∃ t2 st2 sp,
          upsert_papers false now table [v] st = .ok (t2, st2) ∧
          lookupBy Py.eqb v.paper_id t2 = some sp ∧
          ((f v).isNone = true → f sp.row = f old.row) ∧
          ((f v).isNone = false → f sp.row = f v)) ∧
    (∀ (g : AuthorRow → Py), g ∈ authorDescriptiveFields →
      ∀ (now : Nat) (table : AuthorTable) (st : ImportStats) (v : AuthorRow)
        (old : StoredAuthor),
        v.author_id.hashable = true →
        lookupBy Py.eqb v.author_id table = some old →
        ∃ t2 st2 sa,
          upsert_authors false now table [v] st = .ok (t2, st2) ∧
          lookupBy Py.eqb v.author_id t2 = some sa ∧
          ((g v).isNone = true → g sa.row = g old.row) ∧
          ((g v).isNone = false → g sa.row = g v)) := by
  constructor
  · intro f hf now table st v old hl
    obtain ⟨st2, hrun⟩ := upsert_papers_single now table st v
    have hrow : upsertPaperRow now table v =
        (replaceBy Py.eqb v.paper_id ⟨mergePaper v old.row, now⟩ table, false) := by
      simp [upsertPaperRow, upsertRowBy, hl]
    refine ⟨_, st2, ⟨mergePaper v old.row, now⟩, hrun, ?_, ?_, ?_⟩
    · rw [hrow]
      exact lookupBy_replaceBy_self Py.eqb v.paper_id _ table (by simp [hl])
    · intro hnull
      simp [paperDescriptiveFields] at hf
      rcases hf with rfl | rfl | rfl | rfl | rfl | rfl | rfl | rfl | rfl | rfl | rfl | rfl <;>
        simp_all [mergePaper, coalesce]
    · intro hnn
      simp [paperDescriptiveFields] at hf
      rcases hf with rfl | rfl | rfl | rfl | rfl | rfl | rfl | rfl | rfl | rfl | rfl | rfl <;>
        simp_all [mergePaper, coalesce]
  · intro g hg now table st v old hh hl
    obtain ⟨st2, hrun⟩ := upsert_authors_single now table st v hh
    have hrow : upsertAuthorRow now table v =
        (replaceBy Py.eqb v.author_id ⟨mergeAuthor v old.row, now⟩ table, false) := by
      simp [upsertAuthorRow, upsertRowBy, hl]
    refine ⟨_, st2, ⟨mergeAuthor v old.row, now⟩, hrun, ?_, ?_, ?_⟩
    · rw [hrow]
      exact lookupBy_replaceBy_self Py.eqb v.author_id _ table (by simp [hl])
    · intro hnull
      simp [authorDescriptiveFields] at hg
      rcases hg with rfl | rfl | rfl <;> simp_all [mergeAuthor, coalesce]
    · intro hnn
      simp [authorDescriptiveFields] at hg
      rcases hg with rfl | rfl | rfl <;> simp_all [mergeAuthor, coalesce]

/-- Witness for C2: a stored author with institution "X" updated through an
incoming row whose institution is null keeps "X". -/
theorem descriptive_fields_coalesce_merge_witness :
    (fun r : AuthorRow => r.primary_institution) ∈ authorDescriptiveFields ∧
    (Py.str "A1").hashable = true ∧
    lookupBy Py.eqb (Py.str "A1")
      [((Py.str "A1" : Py),
        (⟨⟨.str "A1", .str "Ann", .none, .str "X", .none⟩, 0⟩ : StoredAuthor))] =
      some ⟨⟨.str "A1", .str "Ann", .none, .str "X", .none⟩, 0⟩ ∧
    ∃ t2 st2 sa,
      upsert_authors false 1
        [((Py.str "A1" : Py),
          (⟨⟨.str "A1", .str "Ann", .none, .str "X", .none⟩, 0⟩ : StoredAuthor))]
        [⟨.str "A1", .str "Ann", .none, .none, .none⟩] ImportStats.init =
        .ok (t2, st2) ∧
      lookupBy Py.eqb (Py.str "A1") t2 = some sa ∧
      sa.row.primary_institution = Py.str "X" := by
  refine ⟨by simp [authorDescriptiveFields], rfl, by simp [lookupBy, Py.eqb], ?_⟩
  obtain ⟨t2, st2, sa, h1, h2, h3, -⟩ :=
    descriptive_fields_coalesce_merge.2
      (fun r => r.primary_institution) (by simp [authorDescriptiveFields])
      1 [((Py.str "A1" : Py),
          (⟨⟨.str "A1", .str "Ann", .none, .str "X", .none⟩, 0⟩ : StoredAuthor))]
      ImportStats.init ⟨.str "A1", .str "Ann", .none, .none, .none⟩
      ⟨⟨.str "A1", .str "Ann", .none, .str "X", .none⟩, 0⟩
      rfl (by simp [lookupBy, Py.eqb])
  exact ⟨t2, st2, sa, h1, h2, h3 rfl⟩

theorem bind_ok {ε α β : Type} {x : Except ε α} {f : α → Except ε β} {b : β}
    (h : (x >>= f) = .ok b) : ∃ a, x = .ok a ∧ f a = .ok b := by
  cases x with
  | ok a => exact ⟨a, rfl, h⟩
  | error e => simp [Bind.bind, Except.bind] at h

theorem iter_len (x : Py) (elems : List Py) (h : x.iter = .ok elems) :
    x.len = .ok (elems.length : Int) := by
  cases x with
  | list xs => simp_all [Py.iter, Py.len]
  | str s =>
    simp [Py.iter] at h
    subst h
    simp [Py.len, List.length_map]
  | dict kvs =>
    simp [Py.iter] at h
    subst h
    simp [Py.len, List.length_map]
  | none => simp [Py.iter] at h
  | bool b => simp [Py.iter] at h
  | int n => simp [Py.iter] at h
  | float q => simp [Py.iter] at h

theorem transform_dict_fields (kvs : List (String × Py)) (row : PaperRow)
    (elems : List Py)
    (h : transform_paper_data (.dict kvs) = some row)
    (ha : rawAuthorships (.dict kvs) = .ok elems) :
    row.cited_by_count = (Py.lookupKey kvs "cited_by_count").getD (.int 0) ∧
    row.referenced_works_count =
      (Py.lookupKey kvs "referenced_works_count").getD (.int 0) ∧
    row.author_count = .int elems.length := by
  unfold transform_paper_data at h
  split at h
  case _ r heqB =>
    subst h
    unfold transformPaperBody at heqB
    obtain ⟨a1, h1, heqB⟩ := bind_ok heqB
    obtain ⟨a2, h2, heqB⟩ := bind_ok heqB
    by_cases hc1 : ¬ a2.truthy = true
    · rw [if_pos hc1] at heqB
      exact Option.noConfusion (Except.ok.inj heqB)
    · rw [if_neg hc1] at heqB
      obtain ⟨a3, h3, heqB⟩ := bind_ok heqB
      obtain ⟨a4, h4, heqB⟩ := bind_ok heqB
      obtain ⟨a5, h5, heqB⟩ := bind_ok heqB
      obtain ⟨a6, h6, heqB⟩ := bind_ok heqB
      obtain ⟨a7, h7, heqB⟩ := bind_ok heqB
      obtain ⟨a8, h8, heqB⟩ := bind_ok heqB
      obtain ⟨a9, h9, heqB⟩ := bind_ok heqB
      obtain ⟨a10, h10, heqB⟩ := bind_ok heqB
      obtain ⟨a11, h11, heqB⟩ := bind_ok heqB
      obtain ⟨a12, h12, heqB⟩ := bind_ok heqB
      obtain ⟨a13, h13, heqB⟩ := bind_ok heqB
      obtain ⟨a14, h14, heqB⟩ := bind_ok heqB
      obtain ⟨a15, h15, heqB⟩ := bind_ok heqB
      obtain ⟨a16, h16, heqB⟩ := bind_ok heqB
      obtain ⟨a17, h17, heqB⟩ := bind_ok heqB
      obtain ⟨a18, h18, heqB⟩ := bind_ok heqB
      obtain ⟨a19, h19, heqB⟩ := bind_ok heqB
      obtain ⟨a20, h20, heqB⟩ := bind_ok heqB
      obtain ⟨a21, h21, heqB⟩ := bind_ok heqB
      obtain ⟨a22, h22, heqB⟩ := bind_ok heqB
      obtain ⟨a23, h23, heqB⟩ := bind_ok heqB
      obtain ⟨a24, h24, heqB⟩ := bind_ok heqB
      obtain ⟨a25, h25, heqB⟩ := bind_ok heqB
      obtain ⟨a26, h26, heqB⟩ := bind_ok heqB
      obtain ⟨a27, h27, heqB⟩ := bind_ok heqB
      obtain ⟨a28, h28, heqB⟩ := bind_ok heqB
      obtain ⟨a29, h29, heqB⟩ := bind_ok heqB
      obtain ⟨a30, h30, heqB⟩ := bind_ok heqB
      obtain ⟨a31, h31, heqB⟩ := bind_ok heqB
      obtain ⟨a32, h32, heqB⟩ := bind_ok heqB
      obtain ⟨a33, h33, heqB⟩ := bind_ok heqB
      obtain ⟨a34, h34, heqB⟩ := bind_ok heqB
      obtain ⟨a35, h35, heqB⟩ := bind_ok heqB
      obtain ⟨a36, h36, heqB⟩ := bind_ok heqB
      obtain ⟨a37, h37, heqB⟩ := bind_ok heqB
      obtain ⟨a38, h38, heqB⟩ := bind_ok heqB
      obtain ⟨a39, h39, heqB⟩ := bind_ok heqB
      obtain ⟨a40, h40, heqB⟩ := bind_ok heqB
      obtain ⟨a41, h41, heqB⟩ := bind_ok heqB
      obtain ⟨a42, h42, heqB⟩ := bind_ok heqB
      obtain ⟨a43, h43, heqB⟩ := bind_ok heqB
      obtain ⟨a44, h44, heqB⟩ := bind_ok heqB
      obtain ⟨a45, h45, heqB⟩ := bind_ok heqB
      obtain ⟨a46, h46, heqB⟩ := bind_ok heqB
      obtain ⟨a47, h47, heqB⟩ := bind_ok heqB
      obtain ⟨a48, h48, heqB⟩ := bind_ok heqB
      obtain ⟨a49, h49, heqB⟩ := bind_ok heqB
      obtain ⟨a50, h50, heqB⟩ := bind_ok heqB
      obtain ⟨a51, h51, heqB⟩ := bind_ok heqB
      have hlit := Option.some.inj (Except.ok.inj heqB)
      subst hlit
      refine ⟨?_, ?_, ?_⟩
      · exact (Except.ok.inj h42).symm
      · exact (Except.ok.inj h43).symm
      · have hx : a15 = (Py.lookupKey kvs "authorships").getD Py.none :=
          (Except.ok.inj h15).symm
        subst hx
        have ha2 := ha
        simp only [rawAuthorships, Py.get, Py.getD, bind, Except.bind] at ha2
        have hlen := iter_len _ _ ha2
        rw [hlen] at h41
        exact congrArg Py.int (Except.ok.inj h41).symm
  case _ => simp at h


/-- C9 (as claimed) is refuted: a raw record with an extractable identifier
and `cited_by_count = -1` is accepted by normalization and the persisted
papers row carries the negative count — the transform/load path does not
enforce non-negativity. -/
theorem citation_counts_not_validated_counterexample :
    ((transform_paper_data negCountRecord).map fun r => r.cited_by_count) =
      some (.int (-1)) ∧
    ((lookupBy Py.eqb (.str "W9")
        (process_paper noFail 0 negCountRecord Store.empty
          ImportStats.init).2.1.papers).map fun sp => sp.row.cited_by_count) =
      some (.int (-1)) :=
  ⟨rfl, rfl⟩

/-- C9 amended: the transform defaults `cited_by_count` and
`referenced_works_count` to 0 when the raw record omits them, and otherwise
passes the supplied value through unvalidated; non-negativity therefore
holds exactly for records whose supplied counts are non-negative. -/
theorem citation_counts_default_zero_else_passthrough
    (kvs : List (String × Py)) (row : PaperRow) (elems : List Py)
    (h : transform_paper_data (.dict kvs) = some row)
    (ha : rawAuthorships (.dict kvs) = .ok elems) :
    (Py.lookupKey kvs "cited_by_count" = Option.none →
      row.cited_by_count = .int 0) ∧
    (∀ x, Py.lookupKey kvs "cited_by_count" = some x →
      row.cited_by_count = x) ∧
    (Py.lookupKey kvs "referenced_works_count" = Option.none →
      row.referenced_works_count = .int 0) ∧
    (∀ x, Py.lookupKey kvs "referenced_works_count" = some x →
      row.referenced_works_count = x) := by
  obtain ⟨h1, h2, -⟩ := transform_dict_fields kvs row elems h ha
  refine ⟨?_, ?_, ?_, ?_⟩
  · intro hn; rw [h1, hn]; rfl
  · intro x hx; rw [h1, hx]; rfl
  · intro hn; rw [h2, hn]; rfl
  · intro x hx; rw [h2, hx]; rfl

/-- Witness for the amended C9 at a concrete record omitting both counts. -/
theorem citation_counts_default_zero_else_passthrough_witness :
    transform_paper_data minimalRecordW1 =
      some ((transform_paper_data minimalRecordW1).getD defaultPaperRow) ∧
    rawAuthorships minimalRecordW1 = .ok [] ∧
    ((transform_paper_data minimalRecordW1).getD
      defaultPaperRow).cited_by_count = .int 0 := by
  refine ⟨rfl, rfl, ?_⟩
  exact (citation_counts_default_zero_else_passthrough
    [("id", .str "https://openalex.org/W1"), ("title", .str "T")]
    ((transform_paper_data minimalRecordW1).getD defaultPaperRow) []
    rfl rfl).1 rfl

/-- C10: the normalized `author_count` is the length of the raw record's
authorship list — it counts every sub-record, including repeated listings of
one author and sub-records without an extractable author id — and on the
concrete record listing the same author twice it is 2 while only one
Authorship row is persisted. -/
theorem author_count_counts_all_sub_records :
    (∀ (kvs : List (String × Py)) (row : PaperRow) (elems : List Py),
      transform_paper_data (.dict kvs) = some row →
      rawAuthorships (.dict kvs) = .ok elems →
      row.author_count = .int elems.length) ∧
    (process_paper noFail 0 dupAuthorRecord Store.empty
      ImportStats.init).2.1.paper_authors.length = 1 ∧
    ((lookupBy Py.eqb (.str "W1")
        (process_paper noFail 0 dupAuthorRecord Store.empty
          ImportStats.init).2.1.papers).map fun sp => sp.row.author_count) =
      some (.int 2) := by
  refine ⟨?_, rfl, rfl⟩
  intro kvs row elems h ha
  exact (transform_dict_fields kvs row elems h ha).2.2

section DedupChar

variable {α κ : Type} (key : α → κ) (eq : κ → κ → Bool)

theorem filter_map_comm (f : α → α) (p : α → Bool) (l : List α) :
    (l.map f).filter p = (l.filter fun b => p (f b)).map f := by
  induction l with
  | nil => rfl
  | cons x rest ih =>
    by_cases h : p (f x) = true <;> simp [h, ih]

theorem pairwise_filter_single
    (hsymm : ∀ a b, eq a b = eq b a)
    (htrans : ∀ a b c, eq a b = true → eq b c = true → eq a c = true)
    (acc : List α) (c : κ)
    (hp : List.Pairwise (fun x y => eq (key x) (key y) = false) acc)
    (hne : acc.filter (fun b => eq (key b) c) ≠ []) :
    ∃ b0, acc.filter (fun b => eq (key b) c) = [b0] ∧ eq (key b0) c = true := by
  induction acc with
  | nil => simp at hne
  | cons x rest ih =>
    obtain ⟨hx, hrest⟩ := List.pairwise_cons.mp hp
    by_cases hpx : eq (key x) c = true
    · refine ⟨x, ?_, hpx⟩
      have hnil : rest.filter (fun b => eq (key b) c) = [] := by
        rw [List.filter_eq_nil_iff]
        intro y hy
        intro hyc
        have hcy : eq c (key y) = true := by rw [hsymm]; exact hyc
        have : eq (key x) (key y) = true := htrans _ _ _ hpx hcy
        rw [hx y hy] at this
        exact Bool.noConfusion this
      simp [List.filter_cons, hpx, hnil]
    · have : (x :: rest).filter (fun b => eq (key b) c) =
          rest.filter (fun b => eq (key b) c) := by
        simp [List.filter_cons, hpx]
      rw [this] at hne ⊢
      exact ih hrest hne

theorem dedupLastStep_pairwise
    (hsymm : ∀ a b, eq a b = eq b a)
    (htrans : ∀ a b c, eq a b = true → eq b c = true → eq a c = true)
    (acc : List α) (a : α)
    (hp : List.Pairwise (fun x y => eq (key x) (key y) = false) acc) :
    List.Pairwise (fun x y => eq (key x) (key y) = false)
      (dedupLastStep key eq acc a) := by
  unfold dedupLastStep
  by_cases hany : (acc.any fun b => eq (key b) (key a)) = true
  · simp only [hany, if_true]
    rw [List.pairwise_map]
    refine hp.imp ?_
    intro x y hxy
    cases hx : eq (key x) (key a) with
    | true =>
      cases hy : eq (key y) (key a) with
      | true =>
        exfalso
        have hay : eq (key a) (key y) = true := by rw [hsymm]; exact hy
        have h2 := htrans _ _ _ hx hay
        rw [hxy] at h2
        exact Bool.noConfusion h2
      | false =>
        cases hay : eq (key a) (key y) with
        | true =>
          exfalso
          have h2 := htrans _ _ _ hx hay
          rw [hxy] at h2
          exact Bool.noConfusion h2
        | false => simp [hx, hy, hay]
    | false =>
      cases hy : eq (key y) (key a) with
      | true => simp [hx, hy]
      | false => simp [hx, hy, hxy]
  · simp only [hany, if_neg, Bool.not_eq_true]
    rw [List.pairwise_append]
    refine ⟨hp, List.pairwise_singleton _ _, ?_⟩
    intro x hx y hy
    simp at hy
    subst hy
    simp [List.any_eq_true] at hany
    exact hany x hx

theorem dedupLastStep_filter
    (hsymm : ∀ a b, eq a b = eq b a)
    (htrans : ∀ a b c, eq a b = true → eq b c = true → eq a c = true)
    (acc : List α) (a : α) (k : κ)
    (hp : List.Pairwise (fun x y => eq (key x) (key y) = false) acc) :
    (dedupLastStep key eq acc a).filter (fun b => eq (key b) k) =
      if eq (key a) k = true then [a]
      else acc.filter (fun b => eq (key b) k) := by
  unfold dedupLastStep
  by_cases hany : (acc.any fun b => eq (key b) (key a)) = true
  · simp only [hany, if_true]
    rw [filter_map_comm]
    cases hak : eq (key a) k with
    | true =>
      have hcong : ∀ b ∈ acc,
          (eq (key (if eq (key b) (key a) = true then a else b)) k) =
            eq (key b) (key a) := by
        intro b hb
        cases hba : eq (key b) (key a) with
        | true => simp [hba, hak]
        | false =>
          simp only [hba, Bool.false_eq_true, if_false]
          cases hbk : eq (key b) k with
          | false => rfl
          | true =>
            exfalso
            have hka : eq k (key a) = true := by rw [hsymm]; exact hak
            have h2 := htrans _ _ _ hbk hka
            rw [hba] at h2
            exact Bool.noConfusion h2
      rw [List.filter_congr hcong]
      have hne : acc.filter (fun b => eq (key b) (key a)) ≠ [] := by
        simp [List.any_eq_true] at hany
        obtain ⟨b, hb, hba⟩ := hany
        intro hnil
        rw [List.filter_eq_nil_iff] at hnil
        exact hnil b hb hba
      obtain ⟨b0, hb0, hb0a⟩ :=
        pairwise_filter_single key eq hsymm htrans acc (key a) hp hne
      rw [hb0]
      simp [hb0a]
    | false =>
      have hcong : ∀ b ∈ acc,
          (eq (key (if eq (key b) (key a) = true then a else b)) k) =
            eq (key b) k := by
        intro b hb
        cases hba : eq (key b) (key a) with
        | true =>
          simp only [hba, if_true]
          cases hbk : eq (key b) k with
          | false => simp [hak]
          | true =>
            exfalso
            have hab : eq (key a) (key b) = true := by rw [hsymm]; exact hba
            have h2 := htrans _ _ _ hab hbk
            rw [hak] at h2
            exact Bool.noConfusion h2
        | false => simp [hba]
      rw [List.filter_congr hcong]
      have hid : ∀ b ∈ acc.filter (fun b => eq (key b) k),
          (if eq (key b) (key a) = true then a else b) = b := by
        intro b hb
        rw [List.mem_filter] at hb
        cases hba : eq (key b) (key a) with
        | false => simp [hba]
        | true =>
          exfalso
          have hbk := hb.2
          have hab : eq (key a) (key b) = true := by rw [hsymm]; exact hba
          have h2 := htrans _ _ _ hab hbk
          rw [hak] at h2
          exact Bool.noConfusion h2
      simp only [Bool.false_eq_true, if_false]
      calc (acc.filter (fun b => eq (key b) k)).map
              (fun b => if eq (key b) (key a) = true then a else b)
          = (acc.filter (fun b => eq (key b) k)).map id := List.map_congr_left hid
        _ = acc.filter (fun b => eq (key b) k) := List.map_id _
  · simp only [hany, if_neg, Bool.not_eq_true]
    rw [List.filter_append]
    simp [List.any_eq_true] at hany
    cases hak : eq (key a) k with
    | true =>
      have hnil : acc.filter (fun b => eq (key b) k) = [] := by
        rw [List.filter_eq_nil_iff]
        intro b hb hbk
        have hka : eq k (key a) = true := by rw [hsymm]; exact hak
        have h2 := htrans _ _ _ hbk hka
        rw [hany b hb] at h2
        exact Bool.noConfusion h2
      simp [hnil, hak]
    | false => simp [hak]

theorem dedupLast_fold_filter
    (hsymm : ∀ a b, eq a b = eq b a)
    (htrans : ∀ a b c, eq a b = true → eq b c = true → eq a c = true)
    (rows : List α) :
    ∀ (acc : List α),
      List.Pairwise (fun x y => eq (key x) (key y) = false) acc →
      ∀ k, (rows.foldl (dedupLastStep key eq) acc).filter
          (fun b => eq (key b) k) =
        match (rows.filter (fun b => eq (key b) k)).getLast? with
        | some w => [w]
        | Option.none => acc.filter (fun b => eq (key b) k) := by
  induction rows with
  | nil => intro acc hp k; simp
  | cons a rest ih =>
    intro acc hp k
    rw [List.foldl_cons]
    rw [ih _ (dedupLastStep_pairwise key eq hsymm htrans acc a hp)]
    cases hrf : (rest.filter (fun b => eq (key b) k)).getLast? with
    | some w =>
      have hne : rest.filter (fun b => eq (key b) k) ≠ [] := by
        intro hnil
        rw [hnil] at hrf
        exact Option.noConfusion hrf
      have : ((a :: rest).filter (fun b => eq (key b) k)).getLast? = some w := by
        rw [List.filter_cons]
        by_cases hpa : eq (key a) k = true
        · simp only [hpa, if_true]
          rw [List.getLast?_cons]
          simp [hrf]
        · simp [hpa, hrf]
      rw [this]
    | none =>
      have hnil : rest.filter (fun b => eq (key b) k) = [] := by
        cases h2 : rest.filter (fun b => eq (key b) k) with
        | nil => rfl
        | cons x xs =>
          rw [h2] at hrf
          simp [List.getLast?] at hrf
      rw [dedupLastStep_filter key eq hsymm htrans acc a k hp]
      rw [List.filter_cons, hnil]
      by_cases hpa : eq (key a) k = true
      · simp [hpa]
      · simp [hpa]

theorem dedupFirstStep_pairwise
    (acc : List α) (n : Nat) (a : α)
    (hp : List.Pairwise (fun x y => eq (key x) (key y) = false) acc) :
    List.Pairwise (fun x y => eq (key x) (key y) = false)
      (dedupFirstStep key eq (acc, n) a).1 := by
  unfold dedupFirstStep
  by_cases hany : (acc.any fun b => eq (key b) (key a)) = true
  · simpa [hany] using hp
  · simp only [hany, if_neg, Bool.not_eq_true]
    rw [List.pairwise_append]
    refine ⟨hp, List.pairwise_singleton _ _, ?_⟩
    intro x hx y hy
    simp at hy
    subst hy
    simp [List.any_eq_true] at hany
    exact hany x hx

theorem dedupFirst_fold_filter
    (hsymm : ∀ a b, eq a b = eq b a)
    (htrans : ∀ a b c, eq a b = true → eq b c = true → eq a c = true)
    (rows : List α) :
    ∀ (acc : List α) (n : Nat),
      List.Pairwise (fun x y => eq (key x) (key y) = false) acc →
      ∀ k, (rows.foldl (dedupFirstStep key eq) (acc, n)).1.filter
          (fun b => eq (key b) k) =
        if (acc.filter (fun b => eq (key b) k)).isEmpty then
          ((rows.filter (fun b => eq (key b) k)).head?).toList
        else acc.filter (fun b => eq (key b) k) := by
  induction rows with
  | nil =>
    intro acc n hp k
    by_cases h : (acc.filter (fun b => eq (key b) k)).isEmpty = true
    · simp only [List.foldl_nil, List.filter_nil, List.head?_nil, h, if_true]
      rw [List.isEmpty_iff] at h
      simp [h]
    · simp [List.foldl_nil, h]
  | cons a rest ih =>
    intro acc n hp k
    rw [List.foldl_cons]
    by_cases hany : (acc.any fun b => eq (key b) (key a)) = true
    · rw [show dedupFirstStep key eq (acc, n) a = (acc, n + 1) from by
        simp [dedupFirstStep, hany]]
      rw [ih acc (n + 1) hp k]
      rw [List.filter_cons]
      by_cases hpa : eq (key a) k = true
      · have hne : ¬ (acc.filter (fun b => eq (key b) k)).isEmpty = true := by
          simp [List.any_eq_true] at hany
          obtain ⟨b, hb, hba⟩ := hany
          have hbk : eq (key b) k = true := htrans _ _ _ hba hpa
          rw [List.isEmpty_iff, List.filter_eq_nil_iff]
          intro hall
          exact absurd hbk (by simp [hall b hb])
        simp [hne]
      · simp [hpa]
    · rw [show dedupFirstStep key eq (acc, n) a = (acc ++ [a], n) from by
        simp [dedupFirstStep, hany]]
      have hp2 : List.Pairwise (fun x y => eq (key x) (key y) = false)
          (acc ++ [a]) := by
        rw [List.pairwise_append]
        refine ⟨hp, List.pairwise_singleton _ _, ?_⟩
        intro x hx y hy
        simp at hy
        subst hy
        simp [List.any_eq_true] at hany
        exact hany x hx
      rw [ih (acc ++ [a]) n hp2 k]
      rw [List.filter_append, List.filter_cons]
      by_cases hpa : eq (key a) k = true
      · have hnil : acc.filter (fun b => eq (key b) k) = [] := by
          rw [List.filter_eq_nil_iff]
          intro b hb hbk
          have hka : eq k (key a) = true := by rw [hsymm]; exact hpa
          have h2 := htrans _ _ _ hbk hka
          simp [List.any_eq_true] at hany
          rw [hany b hb] at h2
          exact Bool.noConfusion h2
        simp [hnil, hpa, List.filter_cons]
      · simp [hpa]

theorem dedupFirst_fold_count (rows : List α) :
    ∀ (acc : List α) (n : Nat),
      (rows.foldl (dedupFirstStep key eq) (acc, n)).1.length +
        (rows.foldl (dedupFirstStep key eq) (acc, n)).2 =
      acc.length + n + rows.length := by
  induction rows with
  | nil => intro acc n; simp
  | cons a rest ih =>
    intro acc n
    rw [List.foldl_cons]
    by_cases hany : (acc.any fun b => eq (key b) (key a)) = true
    · rw [show dedupFirstStep key eq (acc, n) a = (acc, n + 1) from by
        simp [dedupFirstStep, hany]]
      rw [ih acc (n + 1)]
      simp only [List.length_cons]
      omega
    · rw [show dedupFirstStep key eq (acc, n) a = (acc ++ [a], n) from by
        simp [dedupFirstStep, hany]]
      rw [ih (acc ++ [a]) n]
      simp only [List.length_cons, List.length_append, List.length_nil]
      omega

end DedupChar

/-- C4: the author dedup pass keeps exactly one row per author identifier —
the last-seen row in iteration order, so every attribute takes the last-seen
value — and in particular, for one paper listing author A1 with institution
"X" and then again with institution "Y", the surviving in-batch Author row
carries institution "Y". -/
theorem author_dedup_last_wins :
    (∀ (rows : List AuthorRow) (a : AuthorRow), a ∈ rows →
      ∃ w, (rows.filter fun b => Py.eqb b.author_id a.author_id).getLast? =
          some w ∧
        (dedupAuthorsLastWins rows).filter
          (fun b => Py.eqb b.author_id a.author_id) = [w]) ∧
    (dedupAuthorsLastWins
        (authorsBatchOf [annAuthorship "X", annAuthorship "Y"])).map
      (fun r => r.primary_institution) = [.str "Y"] := by
  constructor
  · intro rows a ha
    have hchar := dedupLast_fold_filter (fun r : AuthorRow => r.author_id)
      Py.eqb Py.eqb_symm Py.eqb_trans rows [] List.Pairwise.nil a.author_id
    have hmem : a ∈ rows.filter fun b => Py.eqb b.author_id a.author_id :=
      List.mem_filter.mpr ⟨ha, Py.eqb_refl _⟩
    cases hlast : (rows.filter fun b => Py.eqb b.author_id a.author_id).getLast? with
    | none =>
      exfalso
      cases hfl : rows.filter fun b => Py.eqb b.author_id a.author_id with
      | nil => rw [hfl] at hmem; exact absurd hmem (List.not_mem_nil a)
      | cons x xs =>
        rw [hfl] at hlast
        simp [List.getLast?] at hlast
    | some w =>
      rw [hlast] at hchar
      exact ⟨w, rfl, hchar⟩
  · rfl

/-- Witness for C4 at the two-row batch of the duplicate-author record. -/
theorem author_dedup_last_wins_witness :
    (⟨.str "A1", .str "Ann", .none, .str "X", .none⟩ : AuthorRow) ∈
      authorsBatchOf [annAuthorship "X", annAuthorship "Y"] ∧
    ∃ w, ((authorsBatchOf [annAuthorship "X", annAuthorship "Y"]).filter
        (fun b => Py.eqb b.author_id (Py.str "A1"))).getLast? = some w ∧
      (dedupAuthorsLastWins
          (authorsBatchOf [annAuthorship "X", annAuthorship "Y"])).filter
        (fun b => Py.eqb b.author_id (Py.str "A1")) = [w] := by
  have hbatch : authorsBatchOf [annAuthorship "X", annAuthorship "Y"] =
      [⟨.str "A1", .str "Ann", .none, .str "X", .none⟩,
       ⟨.str "A1", .str "Ann", .none, .str "Y", .none⟩] := rfl
  have hmem : (⟨.str "A1", .str "Ann", .none, .str "X", .none⟩ : AuthorRow) ∈
      authorsBatchOf [annAuthorship "X", annAuthorship "Y"] := by
    rw [hbatch]
    exact List.mem_cons_self _ _
  exact ⟨hmem, author_dedup_last_wins.1 _ _ hmem⟩

/-- C5: the authorship dedup pass keeps exactly the first-seen row per
(paper id, author id) pair — so its sequence and position are those of the
first occurrence — discards and counts every later duplicate, and hands the
write exactly one row per pair. -/
theorem authorship_dedup_first_wins
    (rows : List PaperAuthorRow)
    (hh : ∀ r ∈ rows, r.paper_id.hashable = true ∧ r.author_id.hashable = true) :
    ∃ uniq dups,
      dedup_paper_authors rows = .ok (uniq, dups) ∧
      uniq.length + dups = rows.length ∧
      ∀ pa ∈ rows, ∃ w,
        (rows.filter fun q =>
          eqbPair (q.paper_id, q.author_id) (pa.paper_id, pa.author_id)).head? =
          some w ∧
        uniq.filter (fun q =>
          eqbPair (q.paper_id, q.author_id) (pa.paper_id, pa.author_id)) = [w] := by
  have hall : (rows.all fun r => r.paper_id.hashable && r.author_id.hashable) = true := by
    rw [List.all_eq_true]
    intro r hr
    rw [Bool.and_eq_true]
    exact hh r hr
  refine ⟨(dedupPaperAuthorsFirstWins rows).1,
    (dedupPaperAuthorsFirstWins rows).2, ?_, ?_, ?_⟩
  · simp [dedup_paper_authors, hall]
  · have := dedupFirst_fold_count
      (fun r : PaperAuthorRow => (r.paper_id, r.author_id)) eqbPair rows [] 0
    simpa using this
  · intro pa hpa
    have hchar := dedupFirst_fold_filter
      (fun r : PaperAuthorRow => (r.paper_id, r.author_id)) eqbPair
      eqbPair_symm eqbPair_trans rows [] 0 List.Pairwise.nil
      (pa.paper_id, pa.author_id)
    have hmem : pa ∈ rows.filter fun q =>
        eqbPair (q.paper_id, q.author_id) (pa.paper_id, pa.author_id) :=
      List.mem_filter.mpr ⟨hpa, eqbPair_refl _⟩
    cases hhead : (rows.filter fun q =>
        eqbPair (q.paper_id, q.author_id) (pa.paper_id, pa.author_id)).head? with
    | none =>
      exfalso
      cases hfl : rows.filter fun q =>
          eqbPair (q.paper_id, q.author_id) (pa.paper_id, pa.author_id) with
      | nil => rw [hfl] at hmem; exact absurd hmem (List.not_mem_nil pa)
      | cons x xs => rw [hfl] at hhead; exact Option.noConfusion hhead
    | some w =>
      refine ⟨w, rfl, ?_⟩
      rw [hhead] at hchar
      simpa using hchar

/-- Witness for C5 at the two-row batch of the duplicate-author record. -/
theorem authorship_dedup_first_wins_witness :
    (∀ r ∈ paperAuthorsBatchOf (.str "W1")
        [annAuthorship "X", annAuthorship "Y"],
      r.paper_id.hashable = true ∧ r.author_id.hashable = true) ∧
    ∃ uniq dups,
      dedup_paper_authors (paperAuthorsBatchOf (.str "W1")
        [annAuthorship "X", annAuthorship "Y"]) = .ok (uniq, dups) ∧
      uniq.length + dups = (paperAuthorsBatchOf (.str "W1")
        [annAuthorship "X", annAuthorship "Y"]).length ∧
      ∀ pa ∈ paperAuthorsBatchOf (.str "W1")
          [annAuthorship "X", annAuthorship "Y"], ∃ w,
        ((paperAuthorsBatchOf (.str "W1")
          [annAuthorship "X", annAuthorship "Y"]).filter fun q =>
          eqbPair (q.paper_id, q.author_id) (pa.paper_id, pa.author_id)).head? =
          some w ∧
        uniq.filter (fun q =>
          eqbPair (q.paper_id, q.author_id) (pa.paper_id, pa.author_id)) = [w] := by
  constructor
  · intro r hr
    fin_cases hr <;> exact ⟨rfl, rfl⟩
  · exact authorship_dedup_first_wins _ (by intro r hr; fin_cases hr <;> exact ⟨rfl, rfl⟩)

theorem dedupFirst_fold_acc_le {α κ : Type} (key : α → κ) (eq : κ → κ → Bool)
    (rows : List α) : ∀ (acc : List α) (n : Nat),
    acc.length ≤ (rows.foldl (dedupFirstStep key eq) (acc, n)).1.length := by
  induction rows with
  | nil => intro acc n; simp
  | cons a rest ih =>
    intro acc n
    rw [List.foldl_cons]
    by_cases hany : (acc.any fun b => eq (key b) (key a)) = true
    · rw [show dedupFirstStep key eq (acc, n) a = (acc, n + 1) from by
        simp [dedupFirstStep, hany]]
      exact ih acc (n + 1)
    · rw [show dedupFirstStep key eq (acc, n) a = (acc ++ [a], n) from by
        simp [dedupFirstStep, hany]]
      calc acc.length ≤ (acc ++ [a]).length := by simp
        _ ≤ _ := ih (acc ++ [a]) n

theorem dedupPaperAuthors_uniq_ne_empty (rows : List PaperAuthorRow)
    (hne : rows.isEmpty = false) :
    ((dedupPaperAuthorsFirstWins rows).1).isEmpty = false := by
  cases rows with
  | nil => simp at hne
  | cons a rest =>
    have h0 : dedupPaperAuthorsFirstWins (a :: rest) =
        rest.foldl
          (dedupFirstStep (fun r : PaperAuthorRow => (r.paper_id, r.author_id))
            eqbPair) ([a], 0) := rfl
    have hle := dedupFirst_fold_acc_le
      (fun r : PaperAuthorRow => (r.paper_id, r.author_id)) eqbPair rest [a] 0
    rw [h0]
    cases hres : (rest.foldl
        (dedupFirstStep (fun r : PaperAuthorRow => (r.paper_id, r.author_id))
          eqbPair) ([a], 0)).1 with
    | nil => rw [hres] at hle; simp at hle
    | cons x xs => simp

theorem upsert_authors_fail (now : Nat) (table : AuthorTable)
    (rows : List AuthorRow) (st : ImportStats)
    (hne : rows.isEmpty = false)
    (hh : (rows.all fun r => r.author_id.hashable) = true) :
    upsert_authors true now table rows st = .error (table,
      { st with authors_failed :=
          st.authors_failed + (dedupAuthorsLastWins rows).length }) := by
  simp [upsert_authors, hne, dedup_authors, hh]

theorem upsert_papers_fail (now : Nat) (table : PaperTable)
    (rows : List PaperRow) (st : ImportStats)
    (hne : rows.isEmpty = false) :
    upsert_papers true now table rows st = .error (table,
      { st with papers_failed := st.papers_failed + rows.length }) := by
  simp [upsert_papers, hne]

theorem upsert_paper_authors_fail (now : Nat) (table : PaperAuthorTable)
    (rows : List PaperAuthorRow) (st : ImportStats)
    (hne : rows.isEmpty = false)
    (hh : (rows.all fun r => r.paper_id.hashable && r.author_id.hashable) = true) :
    upsert_paper_authors true now table rows st = .error (table,
      { st with paper_authors_failed :=
          st.paper_authors_failed +
            ((dedupPaperAuthorsFirstWins rows).1).length }) := by
  have huniq := dedupPaperAuthors_uniq_ne_empty rows hne
  simp [upsert_paper_authors, hne, dedup_paper_authors, hh, huniq]

/-- C7: a database error during an entity-batch write rolls the batch back
as a unit (the table reverts to its state at entry), raises the entity's
failed counter by exactly the size of the written batch, and propagates; the
per-paper handler catches it, counts that paper as failed, and the load loop
carries on with the next record. -/
theorem batch_write_failure_semantics :
    (∀ (now : Nat) (table : AuthorTable) (rows : List AuthorRow)
        (st : ImportStats),
      rows.isEmpty = false →
      (rows.all fun r => r.author_id.hashable) = true →
      upsert_authors true now table rows st = .error (table,
        { st with authors_failed :=
            st.authors_failed + (dedupAuthorsLastWins rows).length })) ∧
    (∀ (now : Nat) (table : PaperTable) (rows : List PaperRow)
        (st : ImportStats),
      rows.isEmpty = false →
      upsert_papers true now table rows st = .error (table,
        { st with papers_failed := st.papers_failed + rows.length })) ∧
    (∀ (now : Nat) (table : PaperAuthorTable) (rows : List PaperAuthorRow)
        (st : ImportStats),
      rows.isEmpty = false →
      (rows.all fun r => r.paper_id.hashable && r.author_id.hashable) = true →
      upsert_paper_authors true now table rows st = .error (table,
        { st with paper_authors_failed :=
            st.paper_authors_failed +
              ((dedupPaperAuthorsFirstWins rows).1).length })) ∧
    (∀ (bp bpa : Bool) (now : Nat) (p : Py) (store : Store)
        (stats : ImportStats) (row : PaperRow) (sliced : Py) (elems : List Py),
      transform_paper_data p = some row →
      row.title.slice50 = .ok sliced →
      rawAuthorships p = .ok elems →
      (authorsBatchOf elems).isEmpty = false →
      ((authorsBatchOf elems).all fun r => r.author_id.hashable) = true →
      process_paper ⟨true, bp, bpa⟩ now p store stats =
        (false, store,
          { stats with
            authors_failed := stats.authors_failed +
              (dedupAuthorsLastWins (authorsBatchOf elems)).length
            papers_failed := stats.papers_failed + 1 })) ∧
    (∀ (fs : FailSpec) (now : Nat) (p : Py) (rest : List Py) (store : Store)
        (stats : ImportStats),
      load_papers fs now (p :: rest) store stats =
        load_papers fs now rest (process_paper fs now p store stats).2.1
          (process_paper fs now p store stats).2.2) := by
  refine ⟨fun now table rows st hne hh => upsert_authors_fail now table rows st hne hh,
    fun now table rows st hne => upsert_papers_fail now table rows st hne,
    fun now table rows st hne hh => upsert_paper_authors_fail now table rows st hne hh,
    ?_, ?_⟩
  · intro bp bpa now p store stats row sliced elems htr hs hr hbne hhash
    have hup := upsert_authors_fail now store.authors (authorsBatchOf elems)
      stats hbne hhash
    simp [process_paper, htr, processPaperRest, hs, hr, hbne, hup, throw,
      throwThe, MonadExcept.throw, bind, Except.bind, pure, Except.pure]
  · intro fs now p rest store stats
    simp [load_papers]

/-- Witness for C7: the duplicate-author record processed with the
authors-write failure injected. -/
theorem batch_write_failure_semantics_witness :
    transform_paper_data dupAuthorRecord =
      some ((transform_paper_data dupAuthorRecord).getD defaultPaperRow) ∧
    ((transform_paper_data dupAuthorRecord).getD
      defaultPaperRow).title.slice50 = .ok (.str "T") ∧
    rawAuthorships dupAuthorRecord =
      .ok [annAuthorship "X", annAuthorship "Y"] ∧
    (authorsBatchOf [annAuthorship "X", annAuthorship "Y"]).isEmpty = false ∧
    ((authorsBatchOf [annAuthorship "X", annAuthorship "Y"]).all
      fun r => r.author_id.hashable) = true ∧
    process_paper ⟨true, false, false⟩ 0 dupAuthorRecord Store.empty
        ImportStats.init =
      (false, Store.empty,
        { ImportStats.init with
          authors_failed := ImportStats.init.authors_failed +
            (dedupAuthorsLastWins
              (authorsBatchOf [annAuthorship "X", annAuthorship "Y"])).length
          papers_failed := ImportStats.init.papers_failed + 1 }) := by
  refine ⟨rfl, rfl, rfl, rfl, rfl, ?_⟩
  exact batch_write_failure_semantics.2.2.2.1 false false 0 dupAuthorRecord
    Store.empty ImportStats.init
    ((transform_paper_data dupAuthorRecord).getD defaultPaperRow)
    (.str "T") [annAuthorship "X", annAuthorship "Y"] rfl rfl rfl rfl rfl

/-- C6 (as claimed) is refuted: normalization failure is not limited to a
missing identifier.  This record's identifier extracts to "W1", yet the
malformed `concepts` entry (a list holding an int) raises inside the
transform; the exception is caught and the record is rejected, counted
failed, and skipped. -/
theorem normalization_fails_beyond_missing_id_counterexample :
    extract_id_from_url (.str "https://openalex.org/W1") = .ok (.str "W1") ∧
    transform_paper_data malformedConceptsRecord = Option.none ∧
    (process_paper noFail 0 malformedConceptsRecord Store.empty
      ImportStats.init).1 = false ∧
    (process_paper noFail 0 malformedConceptsRecord Store.empty
      ImportStats.init).2.2.papers_failed = 1 :=
  ⟨rfl, rfl, rfl, rfl⟩

/-- C6 amended: a record whose identifier cannot be extracted (the access or
extraction raises, or yields a falsy value) fails normalization; every
normalization failure — including those caused by malformed nested
sub-structures, whose exceptions are caught inside the transform and never
propagate — counts the record as failed and leaves the store untouched, and
the load loop continues with the remaining records; a well-shaped record
with only an identifier normalizes with every optional field null. -/
theorem normalization_failure_semantics :
    (∀ (p : Py) (e : String),
      (do extract_id_from_url (← p.get "id")) = Except.error e →
      transform_paper_data p = Option.none) ∧
    (∀ (p : Py) (pid : Py),
      (do extract_id_from_url (← p.get "id")) = Except.ok pid →
      pid.truthy = false →
      transform_paper_data p = Option.none) ∧
    (∀ (fs : FailSpec) (now : Nat) (p : Py) (store : Store)
        (stats : ImportStats) (rest : List Py),
      transform_paper_data p = Option.none →
      process_paper fs now p store stats =
        (false, store, { stats with papers_failed := stats.papers_failed + 1 }) ∧
      load_papers fs now (p :: rest) store stats =
        load_papers fs now rest store
          { stats with papers_failed := stats.papers_failed + 1 }) ∧
    ((transform_paper_data
        (.dict [("id", .str "https://openalex.org/W1")])).map fun r =>
      (r.doi, r.title, r.journal_name, r.publication_year, r.keywords,
        r.primary_topic, r.first_author_name)) =
      some (.none, .none, .none, .none, .none, .none, .none) := by
  refine ⟨?_, ?_, ?_, rfl⟩
  · intro p e h
    cases hg : p.get "id" with
    | error e2 =>
      simp [transform_paper_data, transformPaperBody, hg, bind, Except.bind]
    | ok v =>
      rw [show (do extract_id_from_url (← p.get "id")) =
          extract_id_from_url v from by simp [hg, bind, Except.bind]] at h
      simp [transform_paper_data, transformPaperBody, hg, h, bind, Except.bind]
  · intro p pid h hfalsy
    cases hg : p.get "id" with
    | error e2 =>
      simp [transform_paper_data, transformPaperBody, hg, bind, Except.bind]
    | ok v =>
      rw [show (do extract_id_from_url (← p.get "id")) =
          extract_id_from_url v from by simp [hg, bind, Except.bind]] at h
      simp [transform_paper_data, transformPaperBody, hg, h, hfalsy, bind,
        Except.bind, pure, Except.pure]
  · intro fs now p store stats rest h
    constructor
    · simp [process_paper, h]
    · simp [load_papers, process_paper, h]

/-- Witness for the amended C6: a non-dict record (attribute access raises),
an id-less dict (falsy extraction), and the malformed-concepts record
(caught transform exception) all fail and are skipped. -/
theorem normalization_failure_semantics_witness :
    ((do extract_id_from_url (← (Py.int 7).get "id")) =
      Except.error "AttributeError" ∧
     transform_paper_data (Py.int 7) = Option.none) ∧
    ((do extract_id_from_url (← (Py.dict []).get "id")) =
      Except.ok Py.none ∧ Py.none.truthy = false ∧
     transform_paper_data (Py.dict []) = Option.none) ∧
    (transform_paper_data malformedConceptsRecord = Option.none ∧
     process_paper noFail 0 malformedConceptsRecord Store.empty
        ImportStats.init =
      (false, Store.empty,
        { ImportStats.init with papers_failed := ImportStats.init.papers_failed + 1 }) ∧
     load_papers noFail 0 [malformedConceptsRecord] Store.empty
        ImportStats.init =
      load_papers noFail 0 [] Store.empty
        { ImportStats.init with papers_failed := ImportStats.init.papers_failed + 1 }) := by
  refine ⟨⟨rfl, ?_⟩, ⟨rfl, rfl, ?_⟩, rfl,
    (normalization_failure_semantics.2.2.1 noFail 0 malformedConceptsRecord
      Store.empty ImportStats.init [] rfl).1,
    (normalization_failure_semantics.2.2.1 noFail 0 malformedConceptsRecord
      Store.empty ImportStats.init [] rfl).2⟩
  · exact normalization_failure_semantics.1 (Py.int 7) "AttributeError" rfl
  · exact normalization_failure_semantics.2.1 (Py.dict []) Py.none rfl rfl

/-- Member categories survive the category-collection fold. -/
theorem mem_foldl_categories (l : List QualityTests.TestResult)
    (x : String) :
    ∀ acc, x ∈ acc → x ∈ l.foldl (fun acc r =>
      if acc.contains r.category then acc else acc ++ [r.category]) acc := by
  induction l with
  | nil => intro acc h; simpa using h
  | cons r rest ih =>
    intro acc h
    rw [List.foldl_cons]
    apply ih
    split <;> simp [h]

theorem mem_categoriesOf (results : List QualityTests.TestResult)
    (r : QualityTests.TestResult) (hr : r ∈ results) :
    r.category ∈ QualityTests.categoriesOf results := by
  unfold QualityTests.categoriesOf
  have hgen : ∀ (l : List QualityTests.TestResult) (acc : List String),
      r ∈ l → r.category ∈ l.foldl (fun acc t =>
        if acc.contains t.category then acc else acc ++ [t.category]) acc := by
    intro l
    induction l with
    | nil => intro acc h2; simp at h2
    | cons t tl ihl =>
      intro acc h2
      rw [List.foldl_cons]
      rcases List.mem_cons.mp h2 with h3 | h3
      · subst h3
        apply mem_foldl_categories
        split
        next hcc => exact List.mem_of_elem_eq_true hcc
        next hcc => simp
      · exact ihl _ h3
  exact hgen results [] hr

/-- C8 (as claimed) is refuted: a check whose query raises a database error
is recorded with `passed = false` while its failure count stays 0, so
"passed iff failure count is zero" fails for that executed check. -/
theorem check_pass_iff_zero_failures_counterexample :
    ∃ r, (QualityTests.run_all_tests ⟨true, 10⟩
        [("Data Validity", [⟨"valid_publication_years", "years in range",
          .error "relation papers does not exist", 3⟩])]).1 = [r] ∧
      r.passed = false ∧ r.failure_count = 0 :=
  ⟨_, rfl, rfl, rfl⟩

/-- C8 amended: a check that executes without error passes iff its failure
count is zero; a check whose execution raises is marked failed with its
failure count left at 0 and the error recorded; the overall result is the
conjunction of the executed checks' pass flags; the report carries an entry
(status, name, count, time) for every executed result, passed or failed; and
with `continue_on_failure` on (the default) no check of a category is
skipped. -/
theorem quality_check_pass_and_report_semantics :
    (∀ (cfg : QualityTests.RunnerConfig) (cat : String)
        (c : QualityTests.CheckSpec) (n : Nat) (samples : List String),
      c.outcome = .ok (n, samples) →
      ((QualityTests.runOneCheck cfg cat c).passed = true ↔
        (QualityTests.runOneCheck cfg cat c).failure_count = 0)) ∧
    (∀ (cfg : QualityTests.RunnerConfig) (cat : String)
        (c : QualityTests.CheckSpec) (e : String),
      c.outcome = .error e →
      (QualityTests.runOneCheck cfg cat c).passed = false ∧
      (QualityTests.runOneCheck cfg cat c).failure_count = 0 ∧
      (QualityTests.runOneCheck cfg cat c).error_message = some e) ∧
    (∀ (cfg : QualityTests.RunnerConfig)
        (cats : List (String × List QualityTests.CheckSpec)),
      (QualityTests.run_all_tests cfg cats).2 =
        (QualityTests.run_all_tests cfg cats).1.all fun r => r.passed) ∧
    (∀ (results : List QualityTests.TestResult)
        (r : QualityTests.TestResult), r ∈ results →
      QualityTests.mkEntry r ∈ QualityTests.reportEntries results) ∧
    (∀ (cfg : QualityTests.RunnerConfig) (cat : String)
        (checks : List QualityTests.CheckSpec),
      cfg.continue_on_failure = true →
      (QualityTests.runCategory cfg cat checks).length = checks.length) := by
  refine ⟨?_, ?_, ?_, ?_, ?_⟩
  · intro cfg cat c n samples h
    simp [QualityTests.runOneCheck, h]
  · intro cfg cat c e h
    simp [QualityTests.runOneCheck, h]
  · intro cfg cats
    rfl
  · intro results r hr
    unfold QualityTests.reportEntries
    rw [List.mem_flatMap]
    refine ⟨r.category, mem_categoriesOf results r hr, ?_⟩
    rw [List.mem_map]
    exact ⟨r, List.mem_filter.mpr ⟨hr, by simp⟩, rfl⟩
  · intro cfg cat checks hcont
    induction checks with
    | nil => rfl
    | cons c rest ih =>
      unfold QualityTests.runCategory
      simp [hcont, ih]

/-- Witness for the amended C8 at a two-check run (one clean failure, one
clean pass). -/
theorem quality_check_pass_and_report_semantics_witness :
    ((⟨"c1", "d1", .ok (2, ["s"]), 1⟩ : QualityTests.CheckSpec).outcome =
      .ok (2, ["s"])) ∧
    ((QualityTests.runOneCheck ⟨true, 10⟩ "Business Logic"
        ⟨"c1", "d1", .ok (2, ["s"]), 1⟩).passed = true ↔
      (QualityTests.runOneCheck ⟨true, 10⟩ "Business Logic"
        ⟨"c1", "d1", .ok (2, ["s"]), 1⟩).failure_count = 0) ∧
    (QualityTests.run_all_tests ⟨true, 10⟩
        [("Business Logic", [⟨"c1", "d1", .ok (2, ["s"]), 1⟩,
                             ⟨"c2", "d2", .ok (0, []), 1⟩])]).2 = false ∧
    QualityTests.mkEntry (QualityTests.runOneCheck ⟨true, 10⟩ "Business Logic"
        ⟨"c1", "d1", .ok (2, ["s"]), 1⟩) ∈
      QualityTests.reportEntries (QualityTests.run_all_tests ⟨true, 10⟩
        [("Business Logic", [⟨"c1", "d1", .ok (2, ["s"]), 1⟩,
                             ⟨"c2", "d2", .ok (0, []), 1⟩])]).1 := by
  refine ⟨rfl, ?_, rfl, ?_⟩
  · exact quality_check_pass_and_report_semantics.1 ⟨true, 10⟩ "Business Logic"
      ⟨"c1", "d1", .ok (2, ["s"]), 1⟩ 2 ["s"] rfl
  · apply quality_check_pass_and_report_semantics.2.2.2.1
    rw [show (QualityTests.run_all_tests ⟨true, 10⟩
        [("Business Logic", [⟨"c1", "d1", .ok (2, ["s"]), 1⟩,
                             ⟨"c2", "d2", .ok (0, []), 1⟩])]).1 =
      [QualityTests.runOneCheck ⟨true, 10⟩ "Business Logic"
        ⟨"c1", "d1", .ok (2, ["s"]), 1⟩,
       QualityTests.runOneCheck ⟨true, 10⟩ "Business Logic"
        ⟨"c2", "d2", .ok (0, []), 1⟩] from rfl]
    exact List.mem_cons_self _ _

/-- Witness for C10 at the duplicate-author record. -/
theorem author_count_counts_all_sub_records_witness :
    transform_paper_data dupAuthorRecord =
      some ((transform_paper_data dupAuthorRecord).getD defaultPaperRow) ∧
    rawAuthorships dupAuthorRecord = .ok [annAuthorship "X", annAuthorship "Y"] ∧
    ((transform_paper_data dupAuthorRecord).getD defaultPaperRow).author_count =
      .int 2 := by
  refine ⟨rfl, rfl, ?_⟩
  exact author_count_counts_all_sub_records.1
    [("id", .str "https://openalex.org/W1"), ("title", .str "T"),
      ("authorships", .list [annAuthorship "X", annAuthorship "Y"])]
    ((transform_paper_data dupAuthorRecord).getD defaultPaperRow)
    [annAuthorship "X", annAuthorship "Y"] rfl rfl

end ImportPapers

namespace ImportPapers

section KeyedBatch

variable {κ ρ α : Type} (eq : κ → κ → Bool)

theorem lookupBy_congr
    (hsymm : ∀ a b, eq a b = eq b a)
    (htrans : ∀ a b c, eq a b = true → eq b c = true → eq a c = true)
    (k1 k2 : κ) (hk : eq k1 k2 = true) (t : List (κ × ρ)) :
    lookupBy eq k1 t = lookupBy eq k2 t := by
  induction t with
  | nil => rfl
  | cons kv rest ih =>
    obtain ⟨k3, r⟩ := kv
    by_cases h3 : eq k3 k1 = true
    · have h4 : eq k3 k2 = true := htrans _ _ _ h3 hk
      simp [lookupBy, h3, h4]
    · have h4 : eq k3 k2 = false := by
        cases h5 : eq k3 k2 with
        | false => rfl
        | true =>
          exfalso
          have hk2 : eq k2 k1 = true := by rw [hsymm]; exact hk
          exact h3 (htrans _ _ _ h5 hk2)
      simp [lookupBy, h3, h4, ih]

theorem replaceBy_congr
    (hsymm : ∀ a b, eq a b = eq b a)
    (htrans : ∀ a b c, eq a b = true → eq b c = true → eq a c = true)
    (k1 k2 : κ) (hk : eq k1 k2 = true) (r : ρ) (t : List (κ × ρ)) :
    replaceBy eq k1 r t = replaceBy eq k2 r t := by
  induction t with
  | nil => rfl
  | cons kv rest ih =>
    obtain ⟨k3, r3⟩ := kv
    by_cases h3 : eq k3 k1 = true
    · have h4 : eq k3 k2 = true := htrans _ _ _ h3 hk
      simp [replaceBy, h3, h4]
    · have h4 : eq k3 k2 = false := by
        cases h5 : eq k3 k2 with
        | false => rfl
        | true =>
          exfalso
          have hk2 : eq k2 k1 = true := by rw [hsymm]; exact hk
          exact h3 (htrans _ _ _ h5 hk2)
      simp [replaceBy, h3, h4, ih]

theorem lookupBy_replaceBy_other
    (hsymm : ∀ a b, eq a b = eq b a)
    (htrans : ∀ a b c, eq a b = true → eq b c = true → eq a c = true)
    (k k2 : κ) (r : ρ) (t : List (κ × ρ)) (hk : eq k2 k = false) :
    lookupBy eq k (replaceBy eq k2 r t) = lookupBy eq k t := by
  induction t with
  | nil => rfl
  | cons kv rest ih =>
    obtain ⟨k3, r3⟩ := kv
    by_cases h3 : eq k3 k2 = true
    · have h4 : eq k3 k = false := by
        cases h5 : eq k3 k with
        | false => rfl
        | true =>
          exfalso
          have h6 : eq k2 k3 = true := by rw [hsymm]; exact h3
          rw [htrans _ _ _ h6 h5] at hk
          exact Bool.noConfusion hk
      simp [replaceBy, lookupBy, h3, h4]
    · by_cases h6 : eq k3 k = true
      · simp [replaceBy, lookupBy, h3, h6]
      · simp [replaceBy, lookupBy, h3, h6, ih]

theorem lookupBy_append_single (k k2 : κ) (i : ρ) (t : List (κ × ρ)) :
    lookupBy eq k (t ++ [(k2, i)]) =
      match lookupBy eq k t with
      | some x => some x
      | Option.none => if eq k2 k = true then some i else Option.none := by
  induction t with
  | nil => simp [lookupBy]
  | cons kv rest ih =>
    obtain ⟨k3, r3⟩ := kv
    by_cases h3 : eq k3 k = true
    · simp [lookupBy, h3]
    · simp [lookupBy, h3, ih]

theorem lookupBy_upsertRowBy_other (keyof2 : κ) (i : ρ) (u : ρ → ρ)
    (hsymm : ∀ a b, eq a b = eq b a)
    (htrans : ∀ a b c, eq a b = true → eq b c = true → eq a c = true)
    (k : κ) (t : List (κ × ρ)) (hk : eq keyof2 k = false) :
    lookupBy eq k (upsertRowBy eq keyof2 i u t).1 = lookupBy eq k t := by
  unfold upsertRowBy
  cases hl : lookupBy eq keyof2 t with
  | none =>
    simp only []
    rw [lookupBy_append_single]
    cases hlk : lookupBy eq k t with
    | none => simp [hk]
    | some x => simp
  | some old =>
    simp only []
    exact lookupBy_replaceBy_other eq hsymm htrans k keyof2 (u old) t hk

theorem lookupBy_upsertRowBy_self (keyof2 : κ) (i : ρ) (u : ρ → ρ)
    (hsymm : ∀ a b, eq a b = eq b a)
    (htrans : ∀ a b c, eq a b = true → eq b c = true → eq a c = true)
    (k : κ) (t : List (κ × ρ)) (hk : eq keyof2 k = true) :
    lookupBy eq k (upsertRowBy eq keyof2 i u t).1 =
      some (match lookupBy eq k t with
        | Option.none => i
        | some r => u r) := by
  unfold upsertRowBy
  rw [lookupBy_congr eq hsymm htrans keyof2 k hk t]
  cases hl : lookupBy eq k t with
  | none =>
    simp only []
    rw [lookupBy_append_single]
    simp [hl, hk]
  | some old =>
    simp only []
    rw [replaceBy_congr eq hsymm htrans keyof2 k hk]
    exact lookupBy_replaceBy_self eq k (u old) t (by simp [hl])

theorem upsertRowBy_flag (keyof2 : κ) (i : ρ) (u : ρ → ρ)
    (t : List (κ × ρ)) :
    (upsertRowBy eq keyof2 i u t).2 = !(lookupBy eq keyof2 t).isSome := by
  unfold upsertRowBy
  cases hl : lookupBy eq keyof2 t <;> simp

theorem containsBy_upsertRowBy (keyof2 : κ) (i : ρ) (u : ρ → ρ)
    (hsymm : ∀ a b, eq a b = eq b a)
    (htrans : ∀ a b c, eq a b = true → eq b c = true → eq a c = true)
    (k : κ) (t : List (κ × ρ)) :
    containsBy eq k (upsertRowBy eq keyof2 i u t).1 =
      (containsBy eq k t || eq keyof2 k) := by
  cases hk : eq keyof2 k with
  | false =>
    unfold containsBy
    rw [lookupBy_upsertRowBy_other eq keyof2 i u hsymm htrans k t hk]
    simp
  | true =>
    unfold containsBy
    rw [lookupBy_upsertRowBy_self eq keyof2 i u hsymm htrans k t hk]
    simp

end KeyedBatch

end ImportPapers

namespace ImportPapers

theorem upsertPaperRow_eq_step (now : Nat) :
    upsertPaperRow now = upsertStep Py.eqb (fun v : PaperRow => v.paper_id)
      (fun v => ⟨v, now⟩) (fun v old => ⟨mergePaper v old.row, now⟩) := rfl

theorem upsertAuthorRow_eq_step (now : Nat) :
    upsertAuthorRow now = upsertStep Py.eqb (fun v : AuthorRow => v.author_id)
      (fun v => ⟨v, now⟩) (fun v old => ⟨mergeAuthor v old.row, now⟩) := rfl

theorem upsertPaperAuthorRow_eq_step (now : Nat) :
    upsertPaperAuthorRow now = upsertStep eqbPair
      (fun v : PaperAuthorRow => (v.paper_id, v.author_id))
      (fun v => ⟨v, now⟩) (fun v old => ⟨mergePaperAuthor v old.row, now⟩) := rfl

section KeyedBatch2

variable {κ ρ α : Type} (eq : κ → κ → Bool) (keyOf : α → κ) (ins : α → ρ)
  (upd : α → ρ → ρ)

theorem runBatch_acc_shift (step : List (κ × ρ) → α → List (κ × ρ) × Bool)
    (ws : List α) : ∀ (t : List (κ × ρ)) (c1 c2 : Nat),
    ws.foldl (fun acc a =>
      let r := step acc.1 a
      (r.1, if r.2 then acc.2.1 + 1 else acc.2.1,
        if r.2 then acc.2.2 else acc.2.2 + 1)) (t, c1, c2) =
      ((runBatch step t ws).1, c1 + (runBatch step t ws).2.1,
        c2 + (runBatch step t ws).2.2) := by
  induction ws with
  | nil => intro t c1 c2; simp [runBatch]
  | cons v vs ih =>
    intro t c1 c2
    have h1 : (v :: vs).foldl (fun acc a =>
        let r := step acc.1 a
        (r.1, if r.2 then acc.2.1 + 1 else acc.2.1,
          if r.2 then acc.2.2 else acc.2.2 + 1)) (t, c1, c2) =
        vs.foldl (fun acc a =>
          let r := step acc.1 a
          (r.1, if r.2 then acc.2.1 + 1 else acc.2.1,
            if r.2 then acc.2.2 else acc.2.2 + 1))
          ((step t v).1, if (step t v).2 then c1 + 1 else c1,
            if (step t v).2 then c2 else c2 + 1) := rfl
    have h2 : runBatch step t (v :: vs) =
        vs.foldl (fun acc a =>
          let r := step acc.1 a
          (r.1, if r.2 then acc.2.1 + 1 else acc.2.1,
            if r.2 then acc.2.2 else acc.2.2 + 1))
          ((step t v).1, if (step t v).2 then 0 + 1 else 0,
            if (step t v).2 then 0 else 0 + 1) := rfl
    rw [h1, ih, h2, ih]
    cases hf : (step t v).2 <;> simp [hf, Prod.ext_iff] <;> omega

theorem runBatch_cons (step : List (κ × ρ) → α → List (κ × ρ) × Bool)
    (v : α) (vs : List α) (t : List (κ × ρ)) :
    runBatch step t (v :: vs) =
      ((runBatch step (step t v).1 vs).1,
        (if (step t v).2 then 1 else 0) + (runBatch step (step t v).1 vs).2.1,
        (if (step t v).2 then 0 else 1) + (runBatch step (step t v).1 vs).2.2) := by
  have h2 : runBatch step t (v :: vs) =
      vs.foldl (fun acc a =>
        let r := step acc.1 a
        (r.1, if r.2 then acc.2.1 + 1 else acc.2.1,
          if r.2 then acc.2.2 else acc.2.2 + 1))
        ((step t v).1, if (step t v).2 then 0 + 1 else 0,
          if (step t v).2 then 0 else 0 + 1) := rfl
  rw [h2, runBatch_acc_shift]

theorem runBatch_append (step : List (κ × ρ) → α → List (κ × ρ) × Bool)
    (w1 w2 : List α) : ∀ t,
    runBatch step t (w1 ++ w2) =
      ((runBatch step (runBatch step t w1).1 w2).1,
        (runBatch step t w1).2.1 + (runBatch step (runBatch step t w1).1 w2).2.1,
        (runBatch step t w1).2.2 + (runBatch step (runBatch step t w1).1 w2).2.2) := by
  induction w1 with
  | nil => intro t; simp [runBatch]
  | cons v vs ih =>
    intro t
    rw [List.cons_append, runBatch_cons, runBatch_cons, ih]
    cases h3 : (step t v).2 <;> simp <;> omega

theorem runBatch_lookup
    (hsymm : ∀ a b, eq a b = eq b a)
    (htrans : ∀ a b c, eq a b = true → eq b c = true → eq a c = true)
    (ws : List α) : ∀ (t : List (κ × ρ)) (k : κ),
    lookupBy eq k (runBatch (upsertStep eq keyOf ins upd) t ws).1 =
      applyStoredKey ins upd (ws.filter fun v => eq (keyOf v) k)
        (lookupBy eq k t) := by
  induction ws with
  | nil => intro t k; simp [runBatch, applyStoredKey]
  | cons v vs ih =>
    intro t k
    rw [runBatch_cons, List.filter_cons]
    cases hk : eq (keyOf v) k with
    | false =>
      simp only [Bool.false_eq_true, if_false]
      rw [ih]
      have : lookupBy eq k ((upsertStep eq keyOf ins upd) t v).1 =
          lookupBy eq k t :=
        lookupBy_upsertRowBy_other eq (keyOf v) (ins v) (fun old => upd v old)
          hsymm htrans k t hk
      rw [this]
    | true =>
      simp only [if_true]
      rw [ih]
      have : lookupBy eq k ((upsertStep eq keyOf ins upd) t v).1 =
          some (match lookupBy eq k t with
            | Option.none => ins v
            | some r => upd v r) :=
        lookupBy_upsertRowBy_self eq (keyOf v) (ins v) (fun old => upd v old)
          hsymm htrans k t hk
      rw [this]
      rw [show applyStoredKey ins upd (v :: List.filter (fun v => eq (keyOf v) k) vs)
            (lookupBy eq k t) =
          applyStoredKey ins upd (List.filter (fun v => eq (keyOf v) k) vs)
            (some (match lookupBy eq k t with
              | Option.none => ins v
              | some r => upd v r)) from by
        unfold applyStoredKey
        rw [List.foldl_cons]]

theorem runBatch_contains
    (hsymm : ∀ a b, eq a b = eq b a)
    (htrans : ∀ a b c, eq a b = true → eq b c = true → eq a c = true)
    (ws : List α) : ∀ (t : List (κ × ρ)) (k : κ),
    containsBy eq k (runBatch (upsertStep eq keyOf ins upd) t ws).1 =
      (containsBy eq k t || ws.any fun v => eq (keyOf v) k) := by
  induction ws with
  | nil => intro t k; simp [runBatch]
  | cons v vs ih =>
    intro t k
    rw [runBatch_cons]
    show containsBy eq k (runBatch (upsertStep eq keyOf ins upd)
      ((upsertStep eq keyOf ins upd) t v).1 vs).1 = _
    rw [ih]
    rw [show (upsertStep eq keyOf ins upd) t v =
      upsertRowBy eq (keyOf v) (ins v) (fun old => upd v old) t from rfl]
    rw [containsBy_upsertRowBy eq (keyOf v) (ins v) (fun old => upd v old)
      hsymm htrans k t]
    simp [List.any_cons, Bool.or_assoc, Bool.or_comm, Bool.or_left_comm]

theorem runBatch_no_new_inserts
    (hsymm : ∀ a b, eq a b = eq b a)
    (htrans : ∀ a b c, eq a b = true → eq b c = true → eq a c = true)
    (ws : List α) : ∀ (t : List (κ × ρ)),
    (∀ v ∈ ws, containsBy eq (keyOf v) t = true) →
    (runBatch (upsertStep eq keyOf ins upd) t ws).2.1 = 0 ∧
    (runBatch (upsertStep eq keyOf ins upd) t ws).2.2 = ws.length := by
  induction ws with
  | nil => intro t h; simp [runBatch]
  | cons v vs ih =>
    intro t h
    rw [runBatch_cons]
    have hflag : ((upsertStep eq keyOf ins upd) t v).2 = false := by
      rw [show (upsertStep eq keyOf ins upd) t v =
        upsertRowBy eq (keyOf v) (ins v) (fun old => upd v old) t from rfl]
      rw [upsertRowBy_flag]
      have := h v (List.mem_cons_self v vs)
      unfold containsBy at this
      simp [this]
    have htail : ∀ w ∈ vs,
        containsBy eq (keyOf w) ((upsertStep eq keyOf ins upd) t v).1 = true := by
      intro w hw
      rw [show (upsertStep eq keyOf ins upd) t v =
        upsertRowBy eq (keyOf v) (ins v) (fun old => upd v old) t from rfl]
      rw [containsBy_upsertRowBy eq (keyOf v) (ins v) (fun old => upd v old)
        hsymm htrans (keyOf w) t]
      rw [h w (List.mem_cons_of_mem v hw)]
      simp
    obtain ⟨h1, h2⟩ := ih ((upsertStep eq keyOf ins upd) t v).1 htail
    rw [hflag]
    constructor
    · simp [h1]
    · simp [h2]
      omega

theorem runBatch_writes_present
    (hrefl : ∀ k, eq k k = true)
    (hsymm : ∀ a b, eq a b = eq b a)
    (htrans : ∀ a b c, eq a b = true → eq b c = true → eq a c = true)
    (ws : List α) (t : List (κ × ρ)) (v : α) (hv : v ∈ ws) :
    containsBy eq (keyOf v) (runBatch (upsertStep eq keyOf ins upd) t ws).1 = true := by
  rw [runBatch_contains eq keyOf ins upd hsymm htrans ws t (keyOf v)]
  have : (ws.any fun w => eq (keyOf w) (keyOf v)) = true := by
    rw [List.any_eq_true]
    exact ⟨v, hv, hrefl _⟩
  simp [this]

end KeyedBatch2

end ImportPapers

namespace ImportPapers

section ReplayMachinery

variable {ρ σ β : Type}

theorem applyStoredKey_proj (ins : ρ → σ) (upd : ρ → σ → σ) (proj : σ → ρ)
    (m : ρ → ρ → ρ)
    (hi : ∀ v, proj (ins v) = v)
    (hu : ∀ v r, proj (upd v r) = m v (proj r)) (ws : List ρ) :
    ∀ s : Option σ,
    (applyStoredKey ins upd ws s).map proj = applyRowKey m ws (s.map proj) := by
  induction ws with
  | nil => intro s; rfl
  | cons v vs ih =>
    intro s
    unfold applyStoredKey applyRowKey
    rw [List.foldl_cons, List.foldl_cons]
    rw [show (List.foldl (fun s v => some (match s with
          | Option.none => ins v
          | some r => upd v r)) (some (match s with
          | Option.none => ins v
          | some r => upd v r)) vs) =
        applyStoredKey ins upd vs (some (match s with
          | Option.none => ins v
          | some r => upd v r)) from rfl]
    rw [show (List.foldl (fun s v => some (match s with
          | Option.none => v
          | some r => m v r)) (some (match s.map proj with
          | Option.none => v
          | some r => m v r)) vs) =
        applyRowKey m vs (some (match s.map proj with
          | Option.none => v
          | some r => m v r)) from rfl]
    rw [ih]
    cases s with
    | none => simp [hi]
    | some x => simp [hu]

theorem applyRowKey_some (m : ρ → ρ → ρ) (ws : List ρ) : ∀ x : ρ,
    applyRowKey m ws (some x) = some (ws.foldl (fun acc v => m v acc) x) := by
  induction ws with
  | nil => intro x; rfl
  | cons v vs ih =>
    intro x
    unfold applyRowKey at ih ⊢
    rw [List.foldl_cons, List.foldl_cons]
    exact ih (m v x)

theorem applyRowKey_cons_none (m : ρ → ρ → ρ) (v : ρ) (vs : List ρ) :
    applyRowKey m (v :: vs) Option.none = applyRowKey m vs (some v) := by
  unfold applyRowKey
  rw [List.foldl_cons]

theorem foldl_second {γ : Type} (g : γ → γ → γ)
    (hg : ∀ v, (∀ y, g y v = v) ∨ (∀ y, g y v = y)) (l : List γ) :
    ∀ x, l.foldl g (l.foldl g x) = l.foldl g x := by
  induction l with
  | nil => intro x; rfl
  | cons v vs ih =>
    intro x
    rw [List.foldl_cons, List.foldl_cons]
    cases hg v with
    | inl hv =>
      rw [hv (vs.foldl g (g x v))]
      rw [show g x v = v from hv x]
    | inr hv =>
      rw [hv (vs.foldl g (g x v))]
      exact ih (g x v)

theorem applyRowKey_replay (pol : ρ → ρ → ρ)
    (hg : ∀ v, (∀ y, pol v y = v) ∨ (∀ y, pol v y = y)) (ks : List ρ)
    (s : Option ρ) :
    applyRowKey pol ks (applyRowKey pol ks s) = applyRowKey pol ks s := by
  have hfold : ∀ v, (∀ y, (fun acc w => pol w acc) y v = v) ∨
      (∀ y, (fun acc w => pol w acc) y v = y) := by
    intro v
    cases hg v with
    | inl h => exact Or.inl (fun y => h y)
    | inr h => exact Or.inr (fun y => h y)
  cases s with
  | some x =>
    rw [applyRowKey_some, applyRowKey_some]
    rw [foldl_second (fun acc w => pol w acc) hfold ks x]
  | none =>
    cases ks with
    | nil => rfl
    | cons v vs =>
      rw [applyRowKey_cons_none, applyRowKey_some]
      rw [show applyRowKey pol (v :: vs)
          (some (List.foldl (fun acc v => pol v acc) v vs)) =
          applyRowKey pol vs
            (some (pol v (List.foldl (fun acc v => pol v acc) v vs))) from by
        unfold applyRowKey
        rw [List.foldl_cons]]
      rw [applyRowKey_some]
      cases hg v with
      | inl hv =>
        rw [hv (List.foldl (fun acc v => pol v acc) v vs)]
      | inr hv =>
        rw [hv (List.foldl (fun acc v => pol v acc) v vs)]
        rw [foldl_second (fun acc w => pol w acc) hfold vs v]

theorem applyRowKey_isSome (m : ρ → ρ → ρ) (ws : List ρ) (s : Option ρ)
    (h : ws ≠ [] ∨ s.isSome) : (applyRowKey m ws s).isSome := by
  cases ws with
  | nil =>
    cases s with
    | none => simp at h
    | some x => rfl
  | cons v vs =>
    cases s with
    | none => rw [applyRowKey_cons_none, applyRowKey_some]; rfl
    | some x => rw [applyRowKey_some]; rfl

theorem applyRowKey_map_field (m : ρ → ρ → ρ) (f : ρ → β) (pol : β → β → β)
    (hm : ∀ v r, f (m v r) = pol (f v) (f r)) (ws : List ρ) :
    ∀ s : Option ρ,
    (applyRowKey m ws s).map f = applyRowKey pol (ws.map f) (s.map f) := by
  induction ws with
  | nil => intro s; rfl
  | cons v vs ih =>
    intro s
    cases s with
    | none =>
      rw [applyRowKey_cons_none, ih]
      rw [show Option.map f (some v) = some (f v) from rfl,
        show Option.map f (Option.none : Option ρ) = (Option.none : Option β)
          from rfl,
        List.map_cons, applyRowKey_cons_none]
    | some x =>
      rw [show applyRowKey m (v :: vs) (some x) =
          applyRowKey m vs (some (m v x)) from by
        unfold applyRowKey
        rw [List.foldl_cons]]
      rw [ih]
      rw [show Option.map f (some (m v x)) = some (f (m v x)) from rfl, hm,
        show Option.map f (some x) = some (f x) from rfl, List.map_cons]
      rw [show applyRowKey pol (f v :: List.map f vs) (some (f x)) =
          applyRowKey pol (List.map f vs) (some (pol (f v) (f x))) from by
        unfold applyRowKey
        rw [List.foldl_cons]]

theorem field_eq_second (m : ρ → ρ → ρ) (ws : List ρ) (s : Option ρ)
    (r1 r2 : ρ)
    (h1 : applyRowKey m ws s = some r1)
    (h2 : applyRowKey m ws (applyRowKey m ws s) = some r2)
    (f : ρ → β) (pol : β → β → β)
    (hm : ∀ v r, f (m v r) = pol (f v) (f r))
    (hg : ∀ v, (∀ y, pol v y = v) ∨ (∀ y, pol v y = y)) :
    f r2 = f r1 := by
  have e1 : (applyRowKey m ws s).map f = applyRowKey pol (ws.map f) (s.map f) :=
    applyRowKey_map_field m f pol hm ws s
  have e2 : (applyRowKey m ws (applyRowKey m ws s)).map f =
      applyRowKey pol (ws.map f) ((applyRowKey m ws s).map f) :=
    applyRowKey_map_field m f pol hm ws (applyRowKey m ws s)
  rw [h1] at e1
  rw [h2, h1] at e2
  rw [e1] at e2
  rw [applyRowKey_replay pol hg (ws.map f) (s.map f)] at e2
  rw [← e1] at e2
  exact Option.some.inj e2

end ReplayMachinery

end ImportPapers

namespace ImportPapers

theorem coalesce_second (v : Py) :
    (∀ y, coalesce v y = v) ∨ (∀ y, coalesce v y = y) := by
  unfold coalesce
  cases h : v.isNone with
  | true => exact Or.inr (fun y => by rw [if_pos rfl])
  | false => exact Or.inl (fun y => by rw [if_neg (by simp [h])])

theorem overwrite_second (v : Py) :
    (∀ y, (fun (a : Py) (_ : Py) => a) v y = v) ∨
    (∀ y, (fun (a : Py) (_ : Py) => a) v y = y) :=
  Or.inl (fun _ => rfl)

theorem keep_second (v : Py) :
    (∀ y, (fun (_ : Py) (b : Py) => b) v y = v) ∨
    (∀ y, (fun (_ : Py) (b : Py) => b) v y = y) :=
  Or.inr (fun _ => rfl)

theorem applyRowKey_second_mergePaper (ws : List PaperRow)
    (s : Option PaperRow) :
    applyRowKey mergePaper ws (applyRowKey mergePaper ws s) =
      applyRowKey mergePaper ws s := by
  cases ws with
  | nil => cases s <;> rfl
  | cons v vs =>
    obtain ⟨r1, h1⟩ := Option.isSome_iff_exists.mp
      (applyRowKey_isSome mergePaper (v :: vs) s (Or.inl (by simp)))
    obtain ⟨r2, h2⟩ := Option.isSome_iff_exists.mp
      (applyRowKey_isSome mergePaper (v :: vs) (applyRowKey mergePaper (v :: vs) s)
        (Or.inl (by simp)))
    rw [h2, h1]
    congr 1
    ext <;> first
      | exact field_eq_second mergePaper (v :: vs) s r1 r2 h1 h2 _
          coalesce (fun a b => rfl) coalesce_second
      | exact field_eq_second mergePaper (v :: vs) s r1 r2 h1 h2 _
          (fun (a : Py) (_ : Py) => a) (fun a b => rfl) overwrite_second
      | exact field_eq_second mergePaper (v :: vs) s r1 r2 h1 h2 _
          (fun (_ : Py) (b : Py) => b) (fun a b => rfl) keep_second

theorem applyRowKey_second_mergeAuthor (ws : List AuthorRow)
    (s : Option AuthorRow) :
    applyRowKey mergeAuthor ws (applyRowKey mergeAuthor ws s) =
      applyRowKey mergeAuthor ws s := by
  cases ws with
  | nil => cases s <;> rfl
  | cons v vs =>
    obtain ⟨r1, h1⟩ := Option.isSome_iff_exists.mp
      (applyRowKey_isSome mergeAuthor (v :: vs) s (Or.inl (by simp)))
    obtain ⟨r2, h2⟩ := Option.isSome_iff_exists.mp
      (applyRowKey_isSome mergeAuthor (v :: vs) (applyRowKey mergeAuthor (v :: vs) s)
        (Or.inl (by simp)))
    rw [h2, h1]
    congr 1
    ext <;> first
      | exact field_eq_second mergeAuthor (v :: vs) s r1 r2 h1 h2 _
          coalesce (fun a b => rfl) coalesce_second
      | exact field_eq_second mergeAuthor (v :: vs) s r1 r2 h1 h2 _
          (fun (a : Py) (_ : Py) => a) (fun a b => rfl) overwrite_second
      | exact field_eq_second mergeAuthor (v :: vs) s r1 r2 h1 h2 _
          (fun (_ : Py) (b : Py) => b) (fun a b => rfl) keep_second

theorem applyRowKey_second_mergePaperAuthor (ws : List PaperAuthorRow)
    (s : Option PaperAuthorRow) :
    applyRowKey mergePaperAuthor ws (applyRowKey mergePaperAuthor ws s) =
      applyRowKey mergePaperAuthor ws s := by
  cases ws with
  | nil => cases s <;> rfl
  | cons v vs =>
    obtain ⟨r1, h1⟩ := Option.isSome_iff_exists.mp
      (applyRowKey_isSome mergePaperAuthor (v :: vs) s (Or.inl (by simp)))
    obtain ⟨r2, h2⟩ := Option.isSome_iff_exists.mp
      (applyRowKey_isSome mergePaperAuthor (v :: vs)
        (applyRowKey mergePaperAuthor (v :: vs) s) (Or.inl (by simp)))
    rw [h2, h1]
    congr 1
    ext <;> first
      | exact field_eq_second mergePaperAuthor (v :: vs) s r1 r2 h1 h2 _
          coalesce (fun a b => rfl) coalesce_second
      | exact field_eq_second mergePaperAuthor (v :: vs) s r1 r2 h1 h2 _
          (fun (a : Py) (_ : Py) => a) (fun a b => rfl) overwrite_second
      | exact field_eq_second mergePaperAuthor (v :: vs) s r1 r2 h1 h2 _
          (fun (_ : Py) (b : Py) => b) (fun a b => rfl) keep_second

theorem lookup_row_runBatch_papers (now : Nat) (ws : List PaperRow)
    (t : PaperTable) (k : Py) :
    (lookupBy Py.eqb k (runBatch (upsertPaperRow now) t ws).1).map
        StoredPaper.row =
      applyRowKey mergePaper (ws.filter fun v => Py.eqb v.paper_id k)
        ((lookupBy Py.eqb k t).map StoredPaper.row) := by
  rw [upsertPaperRow_eq_step]
  rw [runBatch_lookup Py.eqb (fun v : PaperRow => v.paper_id)
    (fun v => ⟨v, now⟩) (fun v old => ⟨mergePaper v old.row, now⟩)
    Py.eqb_symm Py.eqb_trans ws t k]
  rw [applyStoredKey_proj (fun v : PaperRow => (⟨v, now⟩ : StoredPaper))
    (fun v old => ⟨mergePaper v old.row, now⟩) StoredPaper.row mergePaper
    (fun v => rfl) (fun v r => rfl)]

theorem lookup_row_runBatch_authors (now : Nat) (ws : List AuthorRow)
    (t : AuthorTable) (k : Py) :
    (lookupBy Py.eqb k (runBatch (upsertAuthorRow now) t ws).1).map
        StoredAuthor.row =
      applyRowKey mergeAuthor (ws.filter fun v => Py.eqb v.author_id k)
        ((lookupBy Py.eqb k t).map StoredAuthor.row) := by
  rw [upsertAuthorRow_eq_step]
  rw [runBatch_lookup Py.eqb (fun v : AuthorRow => v.author_id)
    (fun v => ⟨v, now⟩) (fun v old => ⟨mergeAuthor v old.row, now⟩)
    Py.eqb_symm Py.eqb_trans ws t k]
  rw [applyStoredKey_proj (fun v : AuthorRow => (⟨v, now⟩ : StoredAuthor))
    (fun v old => ⟨mergeAuthor v old.row, now⟩) StoredAuthor.row mergeAuthor
    (fun v => rfl) (fun v r => rfl)]

theorem lookup_row_runBatch_paper_authors (now : Nat)
    (ws : List PaperAuthorRow) (t : PaperAuthorTable) (k : Py × Py) :
    (lookupBy eqbPair k (runBatch (upsertPaperAuthorRow now) t ws).1).map
        StoredPaperAuthor.row =
      applyRowKey mergePaperAuthor
        (ws.filter fun v => eqbPair (v.paper_id, v.author_id) k)
        ((lookupBy eqbPair k t).map StoredPaperAuthor.row) := by
  rw [upsertPaperAuthorRow_eq_step]
  rw [runBatch_lookup eqbPair
    (fun v : PaperAuthorRow => (v.paper_id, v.author_id))
    (fun v => ⟨v, now⟩) (fun v old => ⟨mergePaperAuthor v old.row, now⟩)
    eqbPair_symm eqbPair_trans ws t k]
  rw [applyStoredKey_proj
    (fun v : PaperAuthorRow => (⟨v, now⟩ : StoredPaperAuthor))
    (fun v old => ⟨mergePaperAuthor v old.row, now⟩) StoredPaperAuthor.row
    mergePaperAuthor (fun v => rfl) (fun v r => rfl)]

end ImportPapers

namespace ImportPapers

theorem runBatch_nil {κ ρ α : Type}
    (step : List (κ × ρ) → α → List (κ × ρ) × Bool) (t : List (κ × ρ)) :
    runBatch step t ([] : List α) = (t, 0, 0) := rfl

theorem process_paper_factor (now : Nat) (p : Py) (store : Store)
    (stats : ImportStats) :
    (process_paper noFail now p store stats).2.1.authors =
      (runBatch (upsertAuthorRow now) store.authors (recordAuthorWrites p)).1 ∧
    (process_paper noFail now p store stats).2.1.papers =
      (runBatch (upsertPaperRow now) store.papers (recordPaperWrites p)).1 ∧
    (process_paper noFail now p store stats).2.1.paper_authors =
      (runBatch (upsertPaperAuthorRow now) store.paper_authors
        (recordPAWrites p)).1 ∧
    (process_paper noFail now p store stats).2.2.authors_inserted =
      stats.authors_inserted +
        (runBatch (upsertAuthorRow now) store.authors
          (recordAuthorWrites p)).2.1 ∧
    (process_paper noFail now p store stats).2.2.authors_updated =
      stats.authors_updated +
        (runBatch (upsertAuthorRow now) store.authors
          (recordAuthorWrites p)).2.2 ∧
    (process_paper noFail now p store stats).2.2.papers_inserted =
      stats.papers_inserted +
        (runBatch (upsertPaperRow now) store.papers (recordPaperWrites p)).2.1 ∧
    (process_paper noFail now p store stats).2.2.papers_updated =
      stats.papers_updated +
        (runBatch (upsertPaperRow now) store.papers (recordPaperWrites p)).2.2 ∧
    (process_paper noFail now p store stats).2.2.paper_authors_inserted =
      stats.paper_authors_inserted +
        (runBatch (upsertPaperAuthorRow now) store.paper_authors
          (recordPAWrites p)).2.1 ∧
    (process_paper noFail now p store stats).2.2.paper_authors_updated =
      stats.paper_authors_updated +
        (runBatch (upsertPaperAuthorRow now) store.paper_authors
          (recordPAWrites p)).2.2 := by
  cases htr : transform_paper_data p with
  | none =>
    simp [process_paper, htr, recordAuthorWrites, recordPaperWrites,
      recordPAWrites, runBatch]
  | some row =>
    cases hsl : row.title.slice50 with
    | error e =>
      simp [process_paper, htr, processPaperRest, hsl, recordAuthorWrites,
        recordPaperWrites, recordPAWrites, runBatch, throw, throwThe,
        MonadExcept.throw, bind, Except.bind, pure, Except.pure]
    | ok sliced =>
      cases hra : rawAuthorships p with
      | error e =>
        simp [process_paper, htr, processPaperRest, hsl, hra,
          recordAuthorWrites, recordPaperWrites, recordPAWrites, runBatch,
          throw, throwThe, MonadExcept.throw, bind, Except.bind, pure,
          Except.pure]
      | ok elems =>
        cases hAe : (authorsBatchOf elems).isEmpty with
        | true =>
          cases hPAe : (paperAuthorsBatchOf row.paper_id elems).isEmpty with
          | true =>
            simp [process_paper, htr, processPaperRest, hsl, hra, hAe, hPAe,
              recordAuthorWrites, recordPaperWrites, recordPAWrites,
              upsert_papers, noFail, runBatch, throw, throwThe,
              MonadExcept.throw, bind, Except.bind, pure, Except.pure]
          | false =>
            cases hdpa : dedup_paper_authors
                (paperAuthorsBatchOf row.paper_id elems) with
            | error e =>
              simp [process_paper, htr, processPaperRest, hsl, hra, hAe, hPAe,
                hdpa, recordAuthorWrites, recordPaperWrites, recordPAWrites,
                upsert_papers, upsert_paper_authors, noFail, runBatch, throw,
                throwThe, MonadExcept.throw, bind, Except.bind, pure,
                Except.pure]
            | ok u =>
              obtain ⟨uniq, drem⟩ := u
              cases hUe : uniq.isEmpty with
              | true =>
                simp [process_paper, htr, processPaperRest, hsl, hra, hAe,
                  hPAe, hdpa, hUe, recordAuthorWrites, recordPaperWrites,
                  recordPAWrites, upsert_papers, upsert_paper_authors, noFail,
                  runBatch, throw, throwThe, MonadExcept.throw, bind,
                  Except.bind, pure, Except.pure]
              | false =>
                simp [process_paper, htr, processPaperRest, hsl, hra, hAe,
                  hPAe, hdpa, hUe, recordAuthorWrites, recordPaperWrites,
                  recordPAWrites, upsert_papers, upsert_paper_authors, noFail,
                  runBatch_nil, throw, throwThe, MonadExcept.throw, bind,
                  Except.bind, pure, Except.pure]
        | false =>
          cases hda : dedup_authors (authorsBatchOf elems) with
          | error e =>
            simp [process_paper, htr, processPaperRest, hsl, hra, hAe, hda,
              recordAuthorWrites, recordPaperWrites, recordPAWrites,
              upsert_authors, noFail, runBatch, throw, throwThe,
              MonadExcept.throw, bind, Except.bind, pure, Except.pure]
          | ok dd =>
            cases hPAe : (paperAuthorsBatchOf row.paper_id elems).isEmpty with
            | true =>
              simp [process_paper, htr, processPaperRest, hsl, hra, hAe, hda,
                hPAe, recordAuthorWrites, recordPaperWrites, recordPAWrites,
                upsert_authors, upsert_papers, noFail, throw, throwThe,
                MonadExcept.throw, bind, Except.bind, pure, Except.pure,
                runBatch]
            | false =>
              cases hdpa : dedup_paper_authors
                  (paperAuthorsBatchOf row.paper_id elems) with
              | error e =>
                simp [process_paper, htr, processPaperRest, hsl, hra, hAe,
                  hda, hPAe, hdpa, recordAuthorWrites, recordPaperWrites,
                  recordPAWrites, upsert_authors, upsert_papers,
                  upsert_paper_authors, noFail, throw, throwThe,
                  MonadExcept.throw, bind, Except.bind, pure, Except.pure,
                  runBatch]
              | ok u =>
                obtain ⟨uniq, drem⟩ := u
                cases hUe : uniq.isEmpty with
                | true =>
                  simp [process_paper, htr, processPaperRest, hsl, hra, hAe,
                    hda, hPAe, hdpa, hUe, recordAuthorWrites,
                    recordPaperWrites, recordPAWrites, upsert_authors,
                    upsert_papers, upsert_paper_authors, noFail, throw,
                    throwThe, MonadExcept.throw, bind, Except.bind, pure,
                    Except.pure, runBatch]
                | false =>
                  simp [process_paper, htr, processPaperRest, hsl, hra, hAe,
                    hda, hPAe, hdpa, hUe, recordAuthorWrites,
                    recordPaperWrites, recordPAWrites, upsert_authors,
                    upsert_papers, upsert_paper_authors, noFail, throw,
                    throwThe, MonadExcept.throw, bind, Except.bind, pure,
                    Except.pure]

end ImportPapers

namespace ImportPapers

theorem load_papers_factor (now : Nat) (batch : List Py) :
    ∀ (store : Store) (stats : ImportStats),
    (load_papers noFail now batch store stats).1.authors =
      (runBatch (upsertAuthorRow now) store.authors
        (batchAuthorWrites batch)).1 ∧
    (load_papers noFail now batch store stats).1.papers =
      (runBatch (upsertPaperRow now) store.papers (batchPaperWrites batch)).1 ∧
    (load_papers noFail now batch store stats).1.paper_authors =
      (runBatch (upsertPaperAuthorRow now) store.paper_authors
        (batchPAWrites batch)).1 ∧
    (load_papers noFail now batch store stats).2.authors_inserted =
      stats.authors_inserted +
        (runBatch (upsertAuthorRow now) store.authors
          (batchAuthorWrites batch)).2.1 ∧
    (load_papers noFail now batch store stats).2.authors_updated =
      stats.authors_updated +
        (runBatch (upsertAuthorRow now) store.authors
          (batchAuthorWrites batch)).2.2 ∧
    (load_papers noFail now batch store stats).2.papers_inserted =
      stats.papers_inserted +
        (runBatch (upsertPaperRow now) store.papers
          (batchPaperWrites batch)).2.1 ∧
    (load_papers noFail now batch store stats).2.papers_updated =
      stats.papers_updated +
        (runBatch (upsertPaperRow now) store.papers
          (batchPaperWrites batch)).2.2 ∧
    (load_papers noFail now batch store stats).2.paper_authors_inserted =
      stats.paper_authors_inserted +
        (runBatch (upsertPaperAuthorRow now) store.paper_authors
          (batchPAWrites batch)).2.1 ∧
    (load_papers noFail now batch store stats).2.paper_authors_updated =
      stats.paper_authors_updated +
        (runBatch (upsertPaperAuthorRow now) store.paper_authors
          (batchPAWrites batch)).2.2 := by
  induction batch with
  | nil =>
    intro store stats
    simp [load_papers, batchAuthorWrites, batchPaperWrites, batchPAWrites,
      runBatch_nil]
  | cons p rest ih =>
    intro store stats
    have hload : load_papers noFail now (p :: rest) store stats =
        load_papers noFail now rest
          (process_paper noFail now p store stats).2.1
          (process_paper noFail now p store stats).2.2 := by
      simp [load_papers]
    obtain ⟨f1, f2, f3, f4, f5, f6, f7, f8, f9⟩ :=
      process_paper_factor now p store stats
    obtain ⟨i1, i2, i3, i4, i5, i6, i7, i8, i9⟩ :=
      ih (process_paper noFail now p store stats).2.1
        (process_paper noFail now p store stats).2.2
    have hbwA : batchAuthorWrites (p :: rest) =
        recordAuthorWrites p ++ batchAuthorWrites rest := by
      simp [batchAuthorWrites]
    have hbwP : batchPaperWrites (p :: rest) =
        recordPaperWrites p ++ batchPaperWrites rest := by
      simp [batchPaperWrites]
    have hbwR : batchPAWrites (p :: rest) =
        recordPAWrites p ++ batchPAWrites rest := by
      simp [batchPAWrites]
    rw [hload]
    refine ⟨?_, ?_, ?_, ?_, ?_, ?_, ?_, ?_, ?_⟩
    · rw [i1, f1, hbwA, runBatch_append]
    · rw [i2, f2, hbwP, runBatch_append]
    · rw [i3, f3, hbwR, runBatch_append]
    · rw [i4, f4, f1, hbwA, runBatch_append]
      simp
      omega
    · rw [i5, f5, f1, hbwA, runBatch_append]
      simp
      omega
    · rw [i6, f6, f2, hbwP, runBatch_append]
      simp
      omega
    · rw [i7, f7, f2, hbwP, runBatch_append]
      simp
      omega
    · rw [i8, f8, f3, hbwR, runBatch_append]
      simp
      omega
    · rw [i9, f9, f3, hbwR, runBatch_append]
      simp
      omega

end ImportPapers

namespace ImportPapers

/-- C1: running the load stage a second time on the identical input batch in
a failure-free environment inserts zero additional rows in each of the three
tables — every row written on the second run is classified as an update —
and leaves every non-timestamp column of every persisted row with the value
it had after the first run. -/
theorem load_stage_idempotent (now1 now2 : Nat) (batch : List Py)
    (S0 S1 S2 : Store) (st0 st1 st2 : ImportStats)
    (h1 : load_papers noFail now1 batch S0 st0 = (S1, st1))
    (h2 : load_papers noFail now2 batch S1 st1 = (S2, st2)) :
    (st2.authors_inserted = st1.authors_inserted ∧
     st2.papers_inserted = st1.papers_inserted ∧
     st2.paper_authors_inserted = st1.paper_authors_inserted) ∧
    (st2.authors_updated =
       st1.authors_updated + (batchAuthorWrites batch).length ∧
     st2.papers_updated =
       st1.papers_updated + (batchPaperWrites batch).length ∧
     st2.paper_authors_updated =
       st1.paper_authors_updated + (batchPAWrites batch).length) ∧
    (∀ k : Py, (lookupBy Py.eqb k S2.authors).map StoredAuthor.row =
       (lookupBy Py.eqb k S1.authors).map StoredAuthor.row) ∧
    (∀ k : Py, (lookupBy Py.eqb k S2.papers).map StoredPaper.row =
       (lookupBy Py.eqb k S1.papers).map StoredPaper.row) ∧
    (∀ k : Py × Py,
       (lookupBy eqbPair k S2.paper_authors).map StoredPaperAuthor.row =
       (lookupBy eqbPair k S1.paper_authors).map StoredPaperAuthor.row) := by
  obtain ⟨a1, a2, a3, _, _, _, _, _, _⟩ := load_papers_factor now1 batch S0 st0
  obtain ⟨b1, b2, b3, b4, b5, b6, b7, b8, b9⟩ :=
    load_papers_factor now2 batch S1 st1
  simp only [h1] at a1 a2 a3
  simp only [h2] at b1 b2 b3 b4 b5 b6 b7 b8 b9
  have hpresA : ∀ v ∈ batchAuthorWrites batch,
      containsBy Py.eqb v.author_id S1.authors = true := by
    intro v hv
    rw [a1, upsertAuthorRow_eq_step]
    exact runBatch_writes_present Py.eqb (fun v : AuthorRow => v.author_id)
      (fun v => ⟨v, now1⟩) (fun v old => ⟨mergeAuthor v old.row, now1⟩)
      Py.eqb_refl Py.eqb_symm Py.eqb_trans (batchAuthorWrites batch)
      S0.authors v hv
  have hzA := runBatch_no_new_inserts Py.eqb (fun v : AuthorRow => v.author_id)
    (fun v => ⟨v, now2⟩) (fun v old => ⟨mergeAuthor v old.row, now2⟩)
    Py.eqb_symm Py.eqb_trans (batchAuthorWrites batch) S1.authors hpresA
  have hpresP : ∀ v ∈ batchPaperWrites batch,
      containsBy Py.eqb v.paper_id S1.papers = true := by
    intro v hv
    rw [a2, upsertPaperRow_eq_step]
    exact runBatch_writes_present Py.eqb (fun v : PaperRow => v.paper_id)
      (fun v => ⟨v, now1⟩) (fun v old => ⟨mergePaper v old.row, now1⟩)
      Py.eqb_refl Py.eqb_symm Py.eqb_trans (batchPaperWrites batch)
      S0.papers v hv
  have hzP := runBatch_no_new_inserts Py.eqb (fun v : PaperRow => v.paper_id)
    (fun v => ⟨v, now2⟩) (fun v old => ⟨mergePaper v old.row, now2⟩)
    Py.eqb_symm Py.eqb_trans (batchPaperWrites batch) S1.papers hpresP
  have hpresR : ∀ v ∈ batchPAWrites batch,
      containsBy eqbPair (v.paper_id, v.author_id) S1.paper_authors = true := by
    intro v hv
    rw [a3, upsertPaperAuthorRow_eq_step]
    exact runBatch_writes_present eqbPair
      (fun v : PaperAuthorRow => (v.paper_id, v.author_id))
      (fun v => ⟨v, now1⟩) (fun v old => ⟨mergePaperAuthor v old.row, now1⟩)
      eqbPair_refl eqbPair_symm eqbPair_trans (batchPAWrites batch)
      S0.paper_authors v hv
  have hzR := runBatch_no_new_inserts eqbPair
    (fun v : PaperAuthorRow => (v.paper_id, v.author_id))
    (fun v => ⟨v, now2⟩) (fun v old => ⟨mergePaperAuthor v old.row, now2⟩)
    eqbPair_symm eqbPair_trans (batchPAWrites batch) S1.paper_authors hpresR
  refine ⟨⟨?_, ?_, ?_⟩, ⟨?_, ?_, ?_⟩, ?_, ?_, ?_⟩
  · rw [b4, upsertAuthorRow_eq_step, hzA.1]
    omega
  · rw [b6, upsertPaperRow_eq_step, hzP.1]
    omega
  · rw [b8, upsertPaperAuthorRow_eq_step, hzR.1]
    omega
  · rw [b5, upsertAuthorRow_eq_step, hzA.2]
  · rw [b7, upsertPaperRow_eq_step, hzP.2]
  · rw [b9, upsertPaperAuthorRow_eq_step, hzR.2]
  · intro k
    rw [b1, lookup_row_runBatch_authors, a1, lookup_row_runBatch_authors]
    exact applyRowKey_second_mergeAuthor _ _
  · intro k
    rw [b2, lookup_row_runBatch_papers, a2, lookup_row_runBatch_papers]
    exact applyRowKey_second_mergePaper _ _
  · intro k
    rw [b3, lookup_row_runBatch_paper_authors, a3,
      lookup_row_runBatch_paper_authors]
    exact applyRowKey_second_mergePaperAuthor _ _

end ImportPapers

namespace ImportPapers

/-- Witness for C1: loading the duplicate-author record twice from the empty
store — the second run inserts nothing, updates every written row, and the
persisted data columns (looked up under the keys W1, A1 and (W1, A1), all
present after the first run) are unchanged. -/
theorem load_stage_idempotent_witness :
    (lookupBy Py.eqb (Py.str "W1")
        (load_papers noFail 0 [dupAuthorRecord] Store.empty
          ImportStats.init).1.papers).isSome = true ∧
    (load_papers noFail 1 [dupAuthorRecord]
        (load_papers noFail 0 [dupAuthorRecord] Store.empty ImportStats.init).1
        (load_papers noFail 0 [dupAuthorRecord] Store.empty
          ImportStats.init).2).2.authors_inserted =
      (load_papers noFail 0 [dupAuthorRecord] Store.empty
        ImportStats.init).2.authors_inserted ∧
    (load_papers noFail 1 [dupAuthorRecord]
        (load_papers noFail 0 [dupAuthorRecord] Store.empty ImportStats.init).1
        (load_papers noFail 0 [dupAuthorRecord] Store.empty
          ImportStats.init).2).2.papers_inserted =
      (load_papers noFail 0 [dupAuthorRecord] Store.empty
        ImportStats.init).2.papers_inserted ∧
    (load_papers noFail 1 [dupAuthorRecord]
        (load_papers noFail 0 [dupAuthorRecord] Store.empty ImportStats.init).1
        (load_papers noFail 0 [dupAuthorRecord] Store.empty
          ImportStats.init).2).2.paper_authors_inserted =
      (load_papers noFail 0 [dupAuthorRecord] Store.empty
        ImportStats.init).2.paper_authors_inserted ∧
    (load_papers noFail 1 [dupAuthorRecord]
        (load_papers noFail 0 [dupAuthorRecord] Store.empty ImportStats.init).1
        (load_papers noFail 0 [dupAuthorRecord] Store.empty
          ImportStats.init).2).2.papers_updated =
      (load_papers noFail 0 [dupAuthorRecord] Store.empty
          ImportStats.init).2.papers_updated +
        (batchPaperWrites [dupAuthorRecord]).length ∧
    (lookupBy Py.eqb (Py.str "A1")
        (load_papers noFail 1 [dupAuthorRecord]
          (load_papers noFail 0 [dupAuthorRecord] Store.empty
            ImportStats.init).1
          (load_papers noFail 0 [dupAuthorRecord] Store.empty
            ImportStats.init).2).1.authors).map StoredAuthor.row =
      (lookupBy Py.eqb (Py.str "A1")
        (load_papers noFail 0 [dupAuthorRecord] Store.empty
          ImportStats.init).1.authors).map StoredAuthor.row ∧
    (lookupBy Py.eqb (Py.str "W1")
        (load_papers noFail 1 [dupAuthorRecord]
          (load_papers noFail 0 [dupAuthorRecord] Store.empty
            ImportStats.init).1
          (load_papers noFail 0 [dupAuthorRecord] Store.empty
            ImportStats.init).2).1.papers).map StoredPaper.row =
      (lookupBy Py.eqb (Py.str "W1")
        (load_papers noFail 0 [dupAuthorRecord] Store.empty
          ImportStats.init).1.papers).map StoredPaper.row ∧
    (lookupBy eqbPair (Py.str "W1", Py.str "A1")
        (load_papers noFail 1 [dupAuthorRecord]
          (load_papers noFail 0 [dupAuthorRecord] Store.empty
            ImportStats.init).1
          (load_papers noFail 0 [dupAuthorRecord] Store.empty
            ImportStats.init).2).1.paper_authors).map StoredPaperAuthor.row =
      (lookupBy eqbPair (Py.str "W1", Py.str "A1")
        (load_papers noFail 0 [dupAuthorRecord] Store.empty
          ImportStats.init).1.paper_authors).map StoredPaperAuthor.row := by
  have h := load_stage_idempotent 0 1 [dupAuthorRecord] Store.empty
    (load_papers noFail 0 [dupAuthorRecord] Store.empty ImportStats.init).1
    (load_papers noFail 1 [dupAuthorRecord]
      (load_papers noFail 0 [dupAuthorRecord] Store.empty ImportStats.init).1
      (load_papers noFail 0 [dupAuthorRecord] Store.empty ImportStats.init).2).1
    ImportStats.init
    (load_papers noFail 0 [dupAuthorRecord] Store.empty ImportStats.init).2
    (load_papers noFail 1 [dupAuthorRecord]
      (load_papers noFail 0 [dupAuthorRecord] Store.empty ImportStats.init).1
      (load_papers noFail 0 [dupAuthorRecord] Store.empty ImportStats.init).2).2
    rfl rfl
  exact ⟨rfl, h.1.1, h.1.2.1, h.1.2.2, h.2.1.2.1,
    h.2.2.1 (Py.str "A1"), h.2.2.2.1 (Py.str "W1"),
    h.2.2.2.2 (Py.str "W1", Py.str "A1")⟩

end ImportPapers
